import Mathlib

/-!
gwyexport: filter chain, output naming and scale-bar sizing

A shallow embedding of `src/gwyexport.c`.  C strings are lists of characters,
a pointer into a string is the suffix it points at, `gint` values are integers,
and the calls made to the Gwyddion processing engine are recorded in a log.
-/

namespace GwyExport

/-- C strings (without the terminating NUL). -/
abbrev Str := List Char

/-! ## C library and GLib helpers used by the source -/

/-- The C `isspace` in the C locale. -/
def isspace (c : Char) : Bool :=
  c = ' ' || c = '\t' || c = '\n' || c = '\x0b' || c = '\x0c' || c = '\r'

/-- The C `isdigit`. -/
def isdigit (c : Char) : Bool := decide ('0' ≤ c) && decide (c ≤ '9')

/-- Accumulates the leading decimal digits of a string. -/
def parseDigits (acc : Nat) : Str → Nat
  | [] => acc
  | c :: cs => if isdigit c then parseDigits (acc * 10 + (c.toNat - 48)) cs else acc

/-- The mathematical value `strtol(s, NULL, 10)` reads: blanks, an optional sign, digits. -/
def strtolValue (s : Str) : Int :=
  match s.dropWhile isspace with
  | '-' :: r => - (parseDigits 0 r : Int)
  | '+' :: r => (parseDigits 0 r : Int)
  | r => (parseDigits 0 r : Int)

/-- The C `strtol` with a 64-bit `long`: the value is clamped to the range of `long`. -/
def strtol (s : Str) : Int :=
  max (-(2 : Int) ^ 63) (min ((2 : Int) ^ 63 - 1) (strtolValue s))

/-- Conversion of a `long` to a 32-bit `int` (two's complement truncation). -/
def toInt32 (z : Int) : Int := (z + 2 ^ 31) % 2 ^ 32 - 2 ^ 31

/-- The C `atoi`, which is `(int) strtol(s, NULL, 10)`. -/
def atoi (s : Str) : Int := toInt32 (strtol s)

/-- The text `printf` produces for `%i`. -/
def printf_i (z : Int) : Str :=
  if z < 0 then '-' :: Nat.toDigits 10 z.natAbs else Nat.toDigits 10 z.toNat

/-- The macro `gwy_strequal(a, b)`, that is `strcmp(a, b) == 0`. -/
def gwy_strequal (a b : Str) : Bool := decide (a = b)

/-- GLib `g_str_has_prefix(str, prefix)`. -/
def g_str_has_prefix (str pre : Str) : Bool := pre.isPrefixOf str

/-- Splits a string at every occurrence of the delimiter character; the pieces of a
string with `n` delimiters are `n + 1` (possibly empty) strings. -/
def splitAll (d : Char) : Str → List Str
  | [] => [[]]
  | c :: cs =>
    if c = d then [] :: splitAll d cs
    else
      match splitAll d cs with
      | [] => [[c]]
      | t :: ts => (c :: t) :: ts

/-- The vector GLib `g_strsplit(string, delimiter, 0)` builds for a one-character
delimiter: the pieces of the string, except that the empty string gives the empty
vector. -/
def strsplitPieces (s : Str) (d : Char) : List Str :=
  if s = [] then [] else splitAll d s

/-- GLib `g_strsplit(string, delimiter, 0)` for a one-character delimiter.  The result is
NULL only for a NULL string (`g_return_val_if_fail`). -/
def g_strsplit (string : Option Str) (d : Char) : Option (List Str) :=
  match string with
  | none => none
  | some s => some (strsplitPieces s d)

/-- Last occurrence of a character in a string, as the suffix starting there. -/
def strrchrSuffix (c : Char) : Str → Option Str
  | [] => none
  | x :: xs =>
    match strrchrSuffix c xs with
    | some s => some s
    | none => if x = c then some (x :: xs) else none

/-- GLib `g_strrstr(haystack, needle)` for a one-character needle.  A NULL haystack makes
`g_return_val_if_fail` return NULL. -/
def g_strrstr (haystack : Option Str) (needle : Char) : Option Str :=
  match haystack with
  | none => none
  | some h => strrchrSuffix needle h

/-- The pointer difference `s - p` for a pointer `p` into the string `s`
(`p` is the suffix of `s` it points at). -/
def ptrdiff (s p : Str) : Int := (p.length : Int) - (s.length : Int)

/-- The macro `STR_APPEND(s, a, t)`: `s` becomes `a` when it was NULL, and
`s`, a comma and a blank, `a` otherwise. -/
def STR_APPEND (s : Option Str) (a : Str) : Option Str :=
  match s with
  | none => some a
  | some s0 => some (s0 ++ ", ".toList ++ a)

/-! ## The processing engine -/

/-- The masking modes of Gwyddion (`GwyMaskingType`). -/
inductive GwyMaskingType
  | GWY_MASK_EXCLUDE
  | GWY_MASK_INCLUDE
  | GWY_MASK_IGNORE
  deriving DecidableEq, Repr

/-- One call of the source into the Gwyddion libraries during filtering. -/
inductive EngineCall
  /-- The query `gwy_process_func_exists(name)`. -/
  | process_func_exists (name : Str)
  /-- The call `gwy_process_func_run(name, data, GWY_RUN_IMMEDIATE)`. -/
  | process_func_run (name : Str)
  /-- The call `gwy_container_set_int32_by_name(settings, key, value)`. -/
  | set_int32 (key : Str) (value : Int)
  /-- The call `gwy_container_set_enum_by_name(settings, key, value)`. -/
  | set_enum (key : Str) (value : GwyMaskingType)
  /-- The call `gwy_container_set_boolean_by_name(settings, key, value)`. -/
  | set_boolean (key : Str) (value : Bool)
  /-- The call `gwy_app_data_browser_get_current(GWY_APP_DATA_FIELD, &dfield, NULL)`. -/
  | get_current_data_field
  /-- The call `gwy_data_field_filter_mean(dfield, size)`. -/
  | filter_mean (size : Int)
  deriving DecidableEq, Repr

def col_degree_key : Str := "/module/polylevel/col_degree".toList
def row_degree_key : Str := "/module/polylevel/row_degree".toList
def max_degree_key : Str := "/module/polylevel/max_degree".toList
def do_extract_key : Str := "/module/polylevel/do_extract".toList
def same_degree_key : Str := "/module/polylevel/same_degree".toList
def independent_key : Str := "/module/polylevel/independent".toList
def masking_key : Str := "/module/polylevel/masking".toList

def EXPORT_DEFAULT_FILTERLIST : Str := "pc;melc;sr;melc;pc".toList
def EXPORT_FILTER_DELIMITER : Char := ';'

/-- The function `execute_process_module(procname, data)`: the module is run when the
engine has it, and the result tells whether it was.  `avail` is the module registry of
the engine; the calls are appended to the log. -/
def execute_process_module (avail : Str → Bool) (procname : Str)
    (calls : List EngineCall) : Bool × List EngineCall :=
  if avail procname then
    (true, calls ++ [EngineCall.process_func_exists procname,
                     EngineCall.process_func_run procname])
  else
    (false, calls ++ [EngineCall.process_func_exists procname])

/-- The variables of `run_filters` that live across loop iterations: the log of engine
calls, the trace `ip->processing`, and the result `r`. -/
structure FilterState where
  calls : List EngineCall
  processing : Option Str
  r : Bool
  deriving DecidableEq, Repr

/-- One iteration of the `while` loop of `run_filters` on the token `thisfilter`. -/
def run_filters_step (avail : Str → Bool) (st : FilterState) (thisfilter : Str) :
    FilterState :=
  if gwy_strequal thisfilter "pc".toList then
    let res := execute_process_module avail "level".toList st.calls
    { calls := res.2, r := st.r && res.1,
      processing := STR_APPEND st.processing "Plane level".toList }
  else if gwy_strequal thisfilter "melc".toList then
    let res := execute_process_module avail "line_correct_median".toList st.calls
    { calls := res.2, r := st.r && res.1,
      processing := STR_APPEND st.processing "Median line correct".toList }
  else if gwy_strequal thisfilter "sr".toList then
    let res := execute_process_module avail "scars_remove".toList st.calls
    { calls := res.2, r := st.r && res.1,
      processing := STR_APPEND st.processing "Scars remove".toList }
  else if  g_str_has_prefix thisfilter "poly".toList then
    let ptra := g_strrstr (some thisfilter) ':'
    let ptrb := g_strrstr ptra ','
    match ptra, ptrb with
    | some pa, some pb =>
      let len : Int := thisfilter.length
      let a : Int := if ptrdiff thisfilter pa + 1 < len then atoi pa.tail else 0
      let b0 : Int := if ptrdiff thisfilter pb + 1 < len then atoi pb.tail else -1
      let b : Int := if a > 0 ∧ b0 < 0 then a else b0
      if a < 0 ∨ b < 0 then
        { st with r := false }
      else
        let calls1 := st.calls ++
          [EngineCall.set_int32 col_degree_key a,
           EngineCall.set_int32 row_degree_key b,
           EngineCall.set_int32 max_degree_key 12,
           EngineCall.set_enum masking_key GwyMaskingType.GWY_MASK_IGNORE,
           EngineCall.set_boolean do_extract_key false,
           EngineCall.set_boolean same_degree_key false,
           EngineCall.set_boolean independent_key true]
        let res := execute_process_module avail "polylevel".toList calls1
        { calls := res.2, r := st.r && res.1,
          processing := STR_APPEND st.processing
            ("Polynomial level: (".toList ++ printf_i a ++ ",".toList ++ printf_i b
              ++ ")".toList) }
    | _, _ => { st with r := false }
  else if  g_str_has_prefix thisfilter "mean".toList then
    match g_strrstr (some thisfilter) ':' with
    | none => { st with r := false }
    | some pa =>
      let len : Int := thisfilter.length
      if ptrdiff thisfilter pa + 1 < len then
        let a : Int := atoi pa.tail
        if a ≤ 0 then
          { st with r := false }
        else
          { calls := st.calls ++
              [EngineCall.get_current_data_field, EngineCall.filter_mean a],
            r := st.r,
            processing := STR_APPEND st.processing
              ("Mean filer: (".toList ++ printf_i a ++ " pixel)".toList) }
      else
        { st with r := false }
  else if  g_str_has_prefix thisfilter "any".toList then
    match g_strrstr (some thisfilter) ':' with
    | none => { st with r := false }
    | some pa =>
      let len : Int := thisfilter.length
      if ptrdiff thisfilter pa + 1 < len then
        let res := execute_process_module avail pa.tail st.calls
        if !res.1 then
          { calls := res.2, r := false, processing := st.processing }
        else
          { calls := res.2, r := st.r,
            processing := STR_APPEND st.processing pa.tail }
      else
        st
  else if gwy_strequal thisfilter [] then
    st
  else
    st

/-- The `while` loop of `run_filters` over the vector of tokens. -/
def run_filters_loop (avail : Str → Bool) (st : FilterState) (filters : List Str) :
    FilterState :=
  filters.foldl (run_filters_step avail) st

/-- The function `run_filters`: `filterlist` is `gp->filterlist` (`none` for NULL),
`processing` is `ip->processing` on entry.  The component `r` of the result is the value
returned, `calls` the engine calls made, `processing` the trace on exit. -/
def run_filters (avail : Str → Bool) (filterlist : Option Str)
    (processing : Option Str) : FilterState :=
  match filterlist with
  | none => { calls := [], processing := processing, r := false }
  | some fl =>
    match g_strsplit (some fl) EXPORT_FILTER_DELIMITER with
    | some filters =>
      run_filters_loop avail { calls := [], processing := processing, r := true } filters
    | none =>
      match g_strsplit (some EXPORT_DEFAULT_FILTERLIST) EXPORT_FILTER_DELIMITER with
      | some filters =>
        run_filters_loop avail { calls := [], processing := processing, r := true } filters
      | none => { calls := [], processing := processing, r := false }

/-- The names of the process modules run, in order. -/
def modulesRun : List EngineCall → List Str
  | [] => []
  | EngineCall.process_func_run n :: cs => n :: modulesRun cs
  | _ :: cs => modulesRun cs

/-! ## Output naming (`handle_single_channel`) -/

/-- GLib `g_strdelimit(string, delimiters, new_delimiter)`: every character of the string
that occurs in `delimiters` is replaced by `new_delimiter`. -/
def g_strdelimit (string delimiters : Str) (new_delimiter : Char) : Str :=
  string.map (fun c => if c ∈ delimiters then new_delimiter else c)

/-- The directory separator `G_DIR_SEPARATOR` of a Unix build. -/
def G_DIR_SEPARATOR : Char := '/'

/-- A string without its trailing directory separators. -/
def dropTrailingSeparators (s : Str) : Str :=
  (s.reverse.dropWhile (fun c => c = G_DIR_SEPARATOR)).reverse

/-- The trailing directory separators of a string. -/
def trailingSeparators (s : Str) : Str :=
  (s.reverse.takeWhile (fun c => c = G_DIR_SEPARATOR)).reverse

/-- GLib `g_path_get_basename(file_name)`: `.` for the empty string, `/` for a string of
separators only, and otherwise the last component without trailing separators. -/
def g_path_get_basename (file_name : Str) : Str :=
  if file_name = [] then ".".toList
  else
    let stripped := dropTrailingSeparators file_name
    if stripped = [] then [G_DIR_SEPARATOR]
    else (stripped.reverse.takeWhile (fun c => c ≠ G_DIR_SEPARATOR)).reverse

/-- The local variables of GLib `g_build_path_va`. -/
structure BuildPathState where
  result : Str
  is_first : Bool
  have_leading : Bool
  single_element : Option Str
  last_trailing : Option Str
  deriving DecidableEq, Repr

/-- One iteration of the loop of GLib `g_build_path_va` for the separator `/`. -/
def g_build_path_step (st : BuildPathState) (element : Str) : BuildPathState :=
  if element = [] then st
  else
    let start := element.dropWhile (fun c => c = G_DIR_SEPARATOR)
    let leading := element.takeWhile (fun c => c = G_DIR_SEPARATOR)
    let body := dropTrailingSeparators start
    let last_trailing := if body = [] then element else trailingSeparators start
    let st1 : BuildPathState :=
      if !st.have_leading then
        { st with
          single_element := if body = [] then some element else st.single_element,
          result := st.result ++ leading,
          have_leading := true,
          last_trailing := some last_trailing }
      else
        { st with single_element := none, last_trailing := some last_trailing }
    if body = [] then st1
    else
      { st1 with
        result := (if !st1.is_first then st1.result ++ [G_DIR_SEPARATOR] else st1.result)
                    ++ body,
        is_first := false }

/-- GLib `g_build_filename(first, ..., NULL)` on Unix: the elements joined with exactly
one separator between them; empty elements are ignored, separators at the start of the
first and at the end of the last element are kept. -/
def g_build_filename (elements : List Str) : Str :=
  let st := elements.foldl g_build_path_step
    { result := [], is_first := true, have_leading := false,
      single_element := none, last_trailing := none }
  match st.single_element with
  | some e => e
  | none =>
    match st.last_trailing with
    | some t => st.result ++ t
    | none => st.result

/-- The type `FileFormat`. -/
inductive FileFormat
  | JPEG
  | PNG
  deriving DecidableEq, Repr

/-- The values of the enumeration `ExportGlobals`. -/
def CMAP_AUTO : Int := 0
def CMAP_ADAPTIVE : Int := 1
def CMAP_FULL : Int := 2

/-- The range types of `GwyLayerBasic` the source stores under `/gwyexport/rangetype`. -/
inductive GwyLayerBasicRangeType
  | GWY_LAYER_BASIC_RANGE_FULL
  | GWY_LAYER_BASIC_RANGE_AUTO
  | GWY_LAYER_BASIC_RANGE_ADAPT
  deriving DecidableEq, Repr

/-- The function of `libdraw` that renders the pixel buffer. -/
inductive DrawCall
  /-- The call `gwy_pixbuf_draw_data_field_with_range`. -/
  | draw_data_field_with_range
  /-- The call `gwy_pixbuf_draw_data_field`. -/
  | draw_data_field
  /-- The call `gwy_pixbuf_draw_data_field_adaptive`. -/
  | draw_data_field_adaptive
  deriving DecidableEq, Repr

/-- The fields of `ExportGlobalParameters` that `process_args` writes and
`handle_single_channel` reads.  `runmode` is 0 and `filelist` empty as
`glob_params_new` leaves them. -/
structure ExportGlobalParameters where
  inputfile : Str
  outpath : Option Str
  format : FileFormat
  filterlist : Option Str
  gradient : Option Str
  printmetafile : Bool
  silentmode : Bool
  colormapping : Int
  n_channels : Int
  runmode : Int := 0
  filelist : List Str := []
  deriving DecidableEq, Repr

/-- The fields of `ExportImageParameters` that `handle_single_channel` sets, with what it
did on the way: the range type stored for the layer, the engine calls of the filter
chain and the drawing function used. -/
structure ExportImageParameters where
  title : Str
  filename : Str
  metafilename : Str
  processing : Option Str
  rangetype : Option GwyLayerBasicRangeType
  filter_calls : List EngineCall
  draw : DrawCall
  deriving DecidableEq, Repr

/-- The function `handle_single_channel(gp, ci)`.  `avail` is the module registry of the
engine, `cwd` what `g_get_current_dir` returns and `title` what
`gwy_app_get_data_field_title` returns for the channel.  The result is `none` when
`g_return_if_fail(ci < gp->n_channels)` returns early. -/
def handle_single_channel (avail : Str → Bool) (cwd : Str) (title : Str)
    (gp : ExportGlobalParameters) (ci : Int) : Option ExportImageParameters :=
  if ¬ (ci < gp.n_channels) then none
  else
    let processing0 : Option Str :=
      match gp.gradient with
      | some g => STR_APPEND none ("Color gradient: ".toList ++ ['\x60'] ++ g ++ ['\x27'])
      | none => none
    let mapped : Option Str × Option GwyLayerBasicRangeType :=
      if gp.colormapping ≠ 0 ∧ gp.colormapping > 0 then
        if gp.colormapping = CMAP_FULL then
          (STR_APPEND processing0 "Color Range: Full".toList,
           some GwyLayerBasicRangeType.GWY_LAYER_BASIC_RANGE_FULL)
        else if gp.colormapping = CMAP_AUTO then
          (STR_APPEND processing0 "Color Range: Auto".toList,
           some GwyLayerBasicRangeType.GWY_LAYER_BASIC_RANGE_AUTO)
        else if gp.colormapping = CMAP_ADAPTIVE then
          (STR_APPEND processing0 "Color Range: Adaptive".toList,
           some GwyLayerBasicRangeType.GWY_LAYER_BASIC_RANGE_ADAPT)
        else (processing0, none)
      else (processing0, none)
    let title1 := g_strdelimit title " ".toList '_'
    let st := run_filters avail gp.filterlist mapped.1
    let drawn : DrawCall × Option Str :=
      if gp.colormapping = CMAP_AUTO then
        (DrawCall.draw_data_field_with_range, st.processing)
      else if gp.colormapping = CMAP_FULL then
        (DrawCall.draw_data_field, st.processing)
      else if gp.colormapping = CMAP_ADAPTIVE then
        (DrawCall.draw_data_field_adaptive, st.processing)
      else
        (DrawCall.draw_data_field_adaptive,
         STR_APPEND st.processing "Color Range: Adaptive".toList)
    let outpath := match gp.outpath with
      | some o => o
      | none => cwd
    let basename := g_path_get_basename gp.inputfile
    let newfilename := basename ++ "-".toList ++ printf_i ci ++ "-".toList ++ title1
    let basepath := g_build_filename [outpath, newfilename]
    let metafilename := basepath ++ ".txt".toList
    let filename :=
      match gp.format with
      | FileFormat.PNG => basepath ++ ".png".toList
      | FileFormat.JPEG => basepath ++ ".jpg".toList
    some { title := title1, filename := filename, metafilename := metafilename,
           processing := drawn.2, rangetype := mapped.2, filter_calls := st.calls,
           draw := drawn.1 }

/-! ## Scale bar (`scalebar_auto_length`) -/

/-- The table `sizes` of `scalebar_auto_length`. -/
def scalebar_sizes : List ℕ :=
  [1, 2, 3, 4, 5, 10, 20, 30, 40, 50, 100, 200, 300, 400, 500]

/-- The scan `for (i = 1; i < G_N_ELEMENTS(sizes); i++) if (x < sizes[i]) break;`:
`prev` is `sizes[i-1]`, the list holds `sizes[i]`, `sizes[i+1]`, ...; the value is the
entry `sizes[i-1]` at which the loop stops. -/
def scalebar_scan {α : Type} [LinearOrderedField α] (x : α) : α → List ℕ → α
  | prev, [] => prev
  | prev, s :: rest => if x < (s : α) then prev else scalebar_scan x (s : α) rest

/-- The entry `sizes[i-1]` selected by the loop of `scalebar_auto_length`. -/
def scalebar_pick {α : Type} [LinearOrderedField α] (x : α) : α :=
  scalebar_scan x 1 scalebar_sizes.tail

/-- The function `scalebar_auto_length(real, siunit, p)` over the real numbers: the
first component is the display length `x` that is formatted into the label, the second
the relative width stored in `*p`. -/
noncomputable def scalebar_auto_length (real : ℝ) : ℝ × ℝ :=
  let vmax : ℝ := 0.42 * real
  let power10 : ℤ := 3 * ⌊Real.logb 10 vmax / 3⌋
  let base : ℝ := (10 : ℝ) ^ ((power10 : ℝ) + 1e-14)
  let x : ℝ := vmax / base
  let x1 : ℝ := scalebar_pick x * base
  (x1, x1 / real)

/-! ## Command line (`process_args`) -/

/-- The values of the enumeration `ExportModes`. -/
def EXPORT_RUNMODE_HELP : Int := 1
def EXPORT_RUNMODE_VERSION : Int := 2
def EXPORT_RUNMODE_IMG : Int := 3
def EXPORT_RUNMODE_ERROR : Int := 4

/-- The function `glob_params_new`: every field zero (NULL, FALSE, `JPEG`, 0) and an empty
file list.  The NULL `inputfile`, which `process_args` does not touch, is the empty
string here. -/
def glob_params_new : ExportGlobalParameters :=
  { inputfile := [], outpath := none, format := FileFormat.JPEG, filterlist := none,
    gradient := none, printmetafile := false, silentmode := false, colormapping := 0,
    n_channels := 0, runmode := 0, filelist := [] }

/-- The `while` loop of `process_args` from position `i` on; the list holds `argv[i]`,
`argv[i+1]`, ..., `argv[argc-1]`.  The second component tells that the function returned
from inside the loop (help or version). -/
def process_args_loop (gp : ExportGlobalParameters) :
    List Str → ExportGlobalParameters × Bool
  | [] => (gp, false)
  | a :: rest =>
    if gwy_strequal a "--help".toList || gwy_strequal a "-h".toList then
      ({ gp with runmode := EXPORT_RUNMODE_HELP }, true)
    else if gwy_strequal a "--version".toList || gwy_strequal a "-v".toList then
      ({ gp with runmode := EXPORT_RUNMODE_VERSION }, true)
    else if gwy_strequal a "--output".toList || gwy_strequal a "-o".toList then
      match rest with
      | v :: rest2 => process_args_loop { gp with outpath := some v } rest2
      | [] => (gp, false)
    else if gwy_strequal a "--metadata".toList || gwy_strequal a "-m".toList then
      process_args_loop { gp with printmetafile := true } rest
    else if gwy_strequal a "--filters".toList || gwy_strequal a "-fl".toList then
      match rest with
      | v :: rest2 => process_args_loop { gp with filterlist := some v } rest2
      | [] => ({ gp with filterlist := some EXPORT_DEFAULT_FILTERLIST }, false)
    else if gwy_strequal a "--defaultfilters".toList then
      process_args_loop { gp with filterlist := some EXPORT_DEFAULT_FILTERLIST } rest
    else if gwy_strequal a "--format".toList || gwy_strequal a "-f".toList then
      match rest with
      | v :: rest2 =>
        if gwy_strequal v "png".toList then
          process_args_loop { gp with format := FileFormat.PNG } rest2
        else if gwy_strequal v "jpg".toList then
          process_args_loop { gp with format := FileFormat.JPEG } rest2
        else process_args_loop gp rest2
      | [] => (gp, false)
    else if gwy_strequal a "--gradient".toList || gwy_strequal a "-g".toList then
      match rest with
      | v :: rest2 => process_args_loop { gp with gradient := some v } rest2
      | [] => (gp, false)
    else if gwy_strequal a "--colormap".toList || gwy_strequal a "-c".toList then
      match rest with
      | v :: rest2 =>
        if gwy_strequal v "auto".toList then
          process_args_loop { gp with colormapping := CMAP_AUTO } rest2
        else if gwy_strequal v "full".toList then
          process_args_loop { gp with colormapping := CMAP_FULL } rest2
        else if gwy_strequal v "adaptive".toList then
          process_args_loop { gp with colormapping := CMAP_ADAPTIVE } rest2
        else process_args_loop { gp with colormapping := CMAP_ADAPTIVE } rest2
      | [] => (gp, false)
    else if gwy_strequal a "--silentmode".toList || gwy_strequal a "-s".toList then
      process_args_loop { gp with silentmode := true } rest
    else
      ({ gp with runmode := EXPORT_RUNMODE_IMG, filelist := gp.filelist ++ a :: rest },
       false)

/-- The consistency checks at the end of `process_args`. -/
def process_args_checks (cwd : Str) (gp : ExportGlobalParameters) :
    ExportGlobalParameters :=
  if gp.filelist.length = 0 then { gp with runmode := EXPORT_RUNMODE_HELP }
  else
    let gp1 := match gp.outpath with
      | none => { gp with outpath := some cwd }
      | some _ => gp
    let gp2 := match gp1.gradient with
      | none => { gp1 with gradient := some "ReiGreen".toList }
      | some _ => gp1
    let gp3 := if gp2.colormapping = 0 ∨ gp2.colormapping ≤ 0 then
        { gp2 with colormapping := CMAP_AUTO }
      else gp2
    match gp3.filterlist with
    | none => { gp3 with filterlist := some EXPORT_DEFAULT_FILTERLIST }
    | some _ => gp3

/-- The function `process_args(argc, argv, gp)`: `argv` holds `argv[0]`, ...,
`argv[argc-1]`, the loop starts at `argv[1]`; `cwd` is what `g_get_current_dir`
returns. -/
def process_args (cwd : Str) (argv : List Str) (gp : ExportGlobalParameters) :
    ExportGlobalParameters :=
  let res := process_args_loop gp argv.tail
  if res.2 then res.1 else process_args_checks cwd res.1

/-! ## Metadata (`save_metadata`) -/

/-- The macro `PACKAGENAME`. -/
def PACKAGENAME : Str := "gwyexport".toList

/-- The text `printf` produces for `%s` (glibc prints `(null)` for NULL). -/
def printf_s (s : Option Str) : Str :=
  match s with
  | some t => t
  | none => "(null)".toList

/-- The key `/<ci>/meta` that `g_snprintf(tmetakey, STRN, "/%i/meta", ci)` builds; it is
shorter than `STRN` for every `gint`. -/
def metaKey (ci : Int) : Str := "/".toList ++ printf_i ci ++ "/meta".toList

/-- The function `save_metadata(gp, iparams, ci)`.  `data` is the loaded container, read
through `gwy_container_contains_by_name` and `gwy_container_get_object_by_name`: a key
is present or not, and a metadata container is given by the lines
`gwy_container_serialize_to_text` returns for it.  `version` is the macro `VERSION` of
`config.h`.  The result is the file written, as its path and its contents, or `none`
when no file is written. -/
def save_metadata (version : Str) (data : Str → Option (List Str)) (inputfile : Str)
    (metafilename : Str) (processing : Option Str) (ci : Int) : Option (Str × Str) :=
  let meta0 : Option (List Str) := none
  let meta1 : Option (List Str) :=
    match data (metaKey ci) with
    | some m => some m
    | none => meta0
  let meta2 : Option (List Str) :=
    match data "/0/meta".toList with
    | some m => some m
    | none => meta1
  match data "/0/meta".toList with
  | none => none
  | some _ =>
    let gparray : List Str := match meta2 with
      | some m => m
      | none => []
    some (metafilename,
      "\"Info:Metadata\" string \"Dumped by ".toList ++ PACKAGENAME ++ " v".toList
        ++ version ++ "\"\n".toList
      ++ ("\"Info:Sourcefile\" string \"".toList ++ inputfile ++ "\"\n".toList)
      ++ (gparray.map (fun e => e ++ "\n".toList)).flatten
      ++ ("\"Info:Processing\" string \"".toList ++ printf_s processing
        ++ "\"\n".toList))

/-- The end of `handle_single_channel`: the channel parameters and, when
`gp->printmetafile` is set, what `save_metadata` writes. -/
def handle_single_channel_metadata (avail : Str → Bool) (cwd : Str) (title : Str)
    (version : Str) (data : Str → Option (List Str)) (gp : ExportGlobalParameters)
    (ci : Int) : Option (ExportImageParameters × Option (Str × Str)) :=
  match handle_single_channel avail cwd title gp ci with
  | none => none
  | some ip =>
    some (ip,
      if gp.printmetafile then
        save_metadata version data gp.inputfile ip.metafilename ip.processing ci
      else none)

/-! ## Vocabulary for stating the properties of the filter chain -/

/-- The state of `run_filters` when the loop starts from an empty trace. -/
def initState : FilterState := { calls := [], processing := none, r := true }

/-- Appends a description to the trace when there is one. -/
def applyDesc (p : Option Str) (d : Option Str) : Option Str :=
  match d with
  | none => p
  | some a => STR_APPEND p a

/-- The names passed to `execute_process_module`, in order (each call of it starts with
the query `gwy_process_func_exists`). -/
def modulesQueried : List EngineCall → List Str
  | [] => []
  | EngineCall.process_func_exists n :: cs => n :: modulesQueried cs
  | _ :: cs => modulesQueried cs

/-- The parameterless and polynomial operations of the filter language, as the
specification names them. -/
inductive FilterOp
  | PlaneCorrect
  | MedianLineCorrect
  | ScarRemove
  | PolyLevel (colDegree rowDegree : Int)
  deriving DecidableEq, Repr

/-- The token of the filter language that denotes an operation. -/
def FilterOp.token : FilterOp → Str
  | FilterOp.PlaneCorrect => "pc".toList
  | FilterOp.MedianLineCorrect => "melc".toList
  | FilterOp.ScarRemove => "sr".toList
  | FilterOp.PolyLevel x y => "poly:".toList ++ printf_i x ++ ",".toList ++ printf_i y

/-- The process module the specification assigns to an operation. -/
def FilterOp.moduleName : FilterOp → Str
  | FilterOp.PlaneCorrect => "level".toList
  | FilterOp.MedianLineCorrect => "line_correct_median".toList
  | FilterOp.ScarRemove => "scars_remove".toList
  | FilterOp.PolyLevel _ _ => "polylevel".toList

/-- The description the specification assigns to an operation. -/
def FilterOp.description : FilterOp → Str
  | FilterOp.PlaneCorrect => "Plane level".toList
  | FilterOp.MedianLineCorrect => "Median line correct".toList
  | FilterOp.ScarRemove => "Scars remove".toList
  | FilterOp.PolyLevel x y =>
    "Polynomial level: (".toList ++ printf_i x ++ ",".toList ++ printf_i y ++ ")".toList

/-- The settings an operation is expected to write before its module runs. -/
def FilterOp.settings : FilterOp → List EngineCall
  | FilterOp.PolyLevel x y =>
    [EngineCall.set_int32 col_degree_key x,
     EngineCall.set_int32 row_degree_key y,
     EngineCall.set_int32 max_degree_key 12,
     EngineCall.set_enum masking_key GwyMaskingType.GWY_MASK_IGNORE,
     EngineCall.set_boolean do_extract_key false,
     EngineCall.set_boolean same_degree_key false,
     EngineCall.set_boolean independent_key true]
  | _ => []

/-- The engine calls expected for an operation: its settings, the query for its module,
and the run of the module when the engine has it. -/
def FilterOp.engineCalls (avail : Str → Bool) (op : FilterOp) : List EngineCall :=
  op.settings ++ (EngineCall.process_func_exists op.moduleName ::
    (if avail op.moduleName then [EngineCall.process_func_run op.moduleName] else []))

/-- Well-formed operations: polynomial degrees are positive values of a 32-bit `int`. -/
def FilterOp.WellFormed : FilterOp → Prop
  | FilterOp.PolyLevel x y => 0 < x ∧ x < 2 ^ 31 ∧ 0 < y ∧ y < 2 ^ 31
  | _ => True

/-- Tokens joined with the filter delimiter. -/
def joinTokens : List Str → Str
  | [] => []
  | [t] => t
  | t :: ts => t ++ EXPORT_FILTER_DELIMITER :: joinTokens ts

/-- The filter spec string that lists the given operations. -/
def filterSpec (ops : List FilterOp) : Str := joinTokens (ops.map FilterOp.token)

/-- The engine calls expected for a list of operations, in order. -/
def expectedCalls (avail : Str → Bool) : List FilterOp → List EngineCall
  | [] => []
  | op :: ops => op.engineCalls avail ++ expectedCalls avail ops

/-- The trace expected after a list of operations: their descriptions appended in order. -/
def expectedTrace (p : Option Str) : List FilterOp → Option Str
  | [] => p
  | op :: ops => expectedTrace (STR_APPEND p op.description) ops

/-- Tokens of one of the six kinds the loop of `run_filters` knows: `pc`, `melc`, `sr`,
or a token that starts with `poly`, `mean` or `any`. -/
def isRecognisedToken (t : Str) : Bool :=
  gwy_strequal t "pc".toList || gwy_strequal t "melc".toList || gwy_strequal t "sr".toList
    ||  g_str_has_prefix t "poly".toList ||  g_str_has_prefix t "mean".toList
    ||  g_str_has_prefix t "any".toList

/-- The resolved row degree of a poly token with parsed degrees `a` and `b0`. -/
def resolvedRowDegree (a b0 : Int) : Int := if a > 0 ∧ b0 < 0 then a else b0

/-- The extension of the image file for a format. -/
def imageExtension : FileFormat → Str
  | FileFormat.PNG => ".png".toList
  | FileFormat.JPEG => ".jpg".toList

/-- The title with every blank replaced by an underscore. -/
def sanitizedTitle (title : Str) : Str :=
  title.map (fun c => if c = ' ' then '_' else c)

/-- The file name stem `<basename>-<ci>-<title>` of the outputs of a channel. -/
def outputStem (inputfile : Str) (ci : Int) (title : Str) : Str :=
  g_path_get_basename inputfile ++ "-".toList ++ printf_i ci ++ "-".toList
    ++ sanitizedTitle title

/-- The output directory in use: `gp->outpath`, or the current directory when unset. -/
def outputDir (gp : ExportGlobalParameters) (cwd : Str) : Str :=
  match gp.outpath with
  | some o => o
  | none => cwd

/-- The value of `power10` in `scalebar_auto_length`. -/
noncomputable def scalebarPower10 (real : ℝ) : ℤ :=
  3 * ⌊Real.logb 10 (0.42 * real) / 3⌋

/-- The value of `base` in `scalebar_auto_length`, `pow10(power10 + 1e-14)`. -/
noncomputable def scalebarBase (real : ℝ) : ℝ :=
  (10 : ℝ) ^ ((scalebarPower10 real : ℝ) + 1e-14)

/-- Descriptions joined with a comma and a blank. -/
def joinDescriptions : List Str → Str
  | [] => []
  | [d] => d
  | d :: ds => d ++ ", ".toList ++ joinDescriptions ds

/-- The lines of a text file, each followed by a newline. -/
def textOfLines (lines : List Str) : Str :=
  (lines.map (fun l => l ++ "\n".toList)).flatten

/-- Options of `process_args` that take no value. -/
def flagOptions : List Str :=
  ["--metadata".toList, "-m".toList, "--defaultfilters".toList, "--silentmode".toList,
   "-s".toList]

/-- Options of `process_args` that take the next argument as their value. -/
def valueOptions : List Str :=
  ["--output".toList, "-o".toList, "--filters".toList, "-fl".toList, "--format".toList,
   "-f".toList, "--gradient".toList, "-g".toList, "--colormap".toList, "-c".toList]

/-- Options of `process_args` that end the parsing: help and version. -/
def stopOptions : List Str :=
  ["--help".toList, "-h".toList, "--version".toList, "-v".toList]

/-- Recognised options of `process_args`. -/
def isOptionToken (a : Str) : Bool :=
  decide (a ∈ stopOptions ++ flagOptions ++ valueOptions)

/-- Argument lists made of flag options and of value options each followed by its
value, without help or version at an option position. -/
def optionsOnly : List Str → Bool
  | [] => true
  | a :: rest =>
    if a ∈ flagOptions then optionsOnly rest
    else if a ∈ valueOptions then
      match rest with
      | _ :: rest2 => optionsOnly rest2
      | [] => false
    else false

/-- The options of the command line, as the usage text lists them. -/
inductive CliOption
  /-- `-o`, `--output <path>`: the directory the files are saved in. -/
  | output (path : Str)
  /-- `-m`, `--metadata`: dump the metadata of each channel. -/
  | metadata
  /-- `-fl`, `--filters <filters>`: the filters applied to each image. -/
  | filters (spec : Str)
  /-- `--defaultfilters`: the predefined filter list. -/
  | defaultFilters
  /-- `-f`, `--format <format>`: `png` or `jpg`; another value changes nothing. -/
  | format (value : Str)
  /-- `-g`, `--gradient <gradient>`: the colour gradient. -/
  | gradient (name : Str)
  /-- `-c`, `--colormap <map>`: `auto`, `full` or `adaptive`; another value counts as
  `adaptive`. -/
  | colormap (value : Str)
  /-- `-s`, `--silentmode`: no messages. -/
  | silentmode
  deriving DecidableEq, Repr

/-- The arguments that spell an option, in the long or in the short form. -/
def CliOption.args (long : Bool) : CliOption → List Str
  | CliOption.output p => [if long then "--output".toList else "-o".toList, p]
  | CliOption.metadata => [if long then "--metadata".toList else "-m".toList]
  | CliOption.filters f => [if long then "--filters".toList else "-fl".toList, f]
  | CliOption.defaultFilters => ["--defaultfilters".toList]
  | CliOption.format v => [if long then "--format".toList else "-f".toList, v]
  | CliOption.gradient g => [if long then "--gradient".toList else "-g".toList, g]
  | CliOption.colormap v => [if long then "--colormap".toList else "-c".toList, v]
  | CliOption.silentmode => [if long then "--silentmode".toList else "-s".toList]

/-- The arguments that spell a list of options. -/
def cliArgs : List (Bool × CliOption) → List Str
  | [] => []
  | o :: os => o.2.args o.1 ++ cliArgs os

/-- What an option is documented to set in the configuration. -/
def applyOption (gp : ExportGlobalParameters) : CliOption → ExportGlobalParameters
  | CliOption.output p => { gp with outpath := some p }
  | CliOption.metadata => { gp with printmetafile := true }
  | CliOption.filters f => { gp with filterlist := some f }
  | CliOption.defaultFilters => { gp with filterlist := some EXPORT_DEFAULT_FILTERLIST }
  | CliOption.format v =>
    if v = "png".toList then { gp with format := FileFormat.PNG }
    else if v = "jpg".toList then { gp with format := FileFormat.JPEG }
    else gp
  | CliOption.gradient g => { gp with gradient := some g }
  | CliOption.colormap v =>
    if v = "auto".toList then { gp with colormapping := CMAP_AUTO }
    else if v = "full".toList then { gp with colormapping := CMAP_FULL }
    else { gp with colormapping := CMAP_ADAPTIVE }
  | CliOption.silentmode => { gp with silentmode := true }

/-! ## Auxiliary facts about the helpers -/

theorem splitAll_ne_nil (d : Char) (s : Str) : splitAll d s ≠ [] := by
  induction s with
  | nil => simp [splitAll]
  | cons c cs ih =>
    unfold splitAll
    split_ifs
    · simp
    · cases h : splitAll d cs <;> simp

theorem splitAll_of_not_mem (d : Char) (t : Str) (h : d ∉ t) : splitAll d t = [t] := by
  induction t with
  | nil => simp [splitAll]
  | cons c cs ih =>
    have hc : c ≠ d := fun e => h (by simp [e])
    have hcs : d ∉ cs := fun e => h (by simp [e])
    simp [splitAll, hc, ih hcs]

theorem splitAll_append_delim (d : Char) (t rest : Str) (h : d ∉ t) :
    splitAll d (t ++ d :: rest) = t :: splitAll d rest := by
  induction t with
  | nil => simp [splitAll]
  | cons c cs ih =>
    have hc : c ≠ d := fun e => h (by simp [e])
    have hcs : d ∉ cs := fun e => h (by simp [e])
    simp [splitAll, hc, ih hcs]

theorem strrchrSuffix_of_not_mem (c : Char) (s : Str) (h : c ∉ s) :
    strrchrSuffix c s = none := by
  induction s with
  | nil => simp [strrchrSuffix]
  | cons x xs ih =>
    have hx : x ≠ c := fun e => h (by simp [e])
    have hxs : c ∉ xs := fun e => h (by simp [e])
    simp [strrchrSuffix, ih hxs, hx]

theorem strrchrSuffix_append (c : Char) (p s : Str) (h : c ∉ s) :
    strrchrSuffix c (p ++ c :: s) = some (c :: s) := by
  induction p with
  | nil => simp [strrchrSuffix, strrchrSuffix_of_not_mem c s h]
  | cons x xs ih => simp [strrchrSuffix, ih]

theorem strrchrSuffix_length_le (c : Char) (s p : Str) (h : strrchrSuffix c s = some p) :
    p.length ≤ s.length := by
  induction s generalizing p with
  | nil => simp [strrchrSuffix] at h
  | cons x xs ih =>
    unfold strrchrSuffix at h
    cases hr : strrchrSuffix c xs with
    | some q =>
      rw [hr] at h
      simp at h
      subst h
      have := ih q hr
      simp
      omega
    | none =>
      rw [hr] at h
      simp at h
      rw [← h.2]

/-- The guard `thisfilter - ptr + 1 < len` holds for every pointer into a string of at
least two characters. -/
theorem ptrdiff_guard (c : Char) (s p : Str) (h : strrchrSuffix c s = some p)
    (hlen : 2 ≤ s.length) : ptrdiff s p + 1 < (s.length : Int) := by
  have := strrchrSuffix_length_le c s p h
  unfold ptrdiff
  omega

theorem digitChar_spec (d : Nat) (h : d < 10) :
    isdigit (Nat.digitChar d) = true ∧ (Nat.digitChar d).toNat - 48 = d := by
  interval_cases d <;> decide

theorem toDigitsCore_spec (fuel : Nat) : ∀ (n : Nat) (ds : List Char), n < fuel →
    ∃ l, Nat.toDigitsCore 10 fuel n ds = l ++ ds ∧ l ≠ [] ∧
      (∀ c ∈ l, isdigit c = true) ∧
      ∀ acc tl, parseDigits acc (l ++ tl) = parseDigits (acc * 10 ^ l.length + n) tl := by
  induction fuel with
  | zero => intro n ds h; omega
  | succ fuel ih =>
    intro n ds h
    have hd := digitChar_spec (n % 10) (Nat.mod_lt _ (by norm_num))
    unfold Nat.toDigitsCore
    by_cases h0 : n / 10 = 0
    · refine ⟨[Nat.digitChar (n % 10)], by simp [h0], by simp, by simpa using hd.1, ?_⟩
      intro acc tl
      have hn : n % 10 = n := Nat.mod_eq_of_lt (by omega)
      rw [hn] at hd
      simp [parseDigits, hd.1, hd.2, hn]
    · have hlt : n / 10 < fuel := by omega
      obtain ⟨l, hl, _, hdig, hval⟩ := ih (n / 10) (Nat.digitChar (n % 10) :: ds) hlt
      refine ⟨l ++ [Nat.digitChar (n % 10)], by simp [h0, hl], by simp, ?_, ?_⟩
      · intro c hc
        rcases List.mem_append.1 hc with hc | hc
        · exact hdig c hc
        · simp at hc; simpa [hc] using hd.1
      · intro acc tl
        have := hval acc (Nat.digitChar (n % 10) :: tl)
        simp only [List.append_assoc, List.singleton_append, this]
        simp only [parseDigits, hd.1, hd.2, if_true]
        congr 1
        simp [pow_succ]
        have := Nat.div_add_mod n 10
        ring_nf
        omega

/-- The decimal digits of a number are digits, and reading them back gives the number. -/
theorem toDigits_spec (n : Nat) :
    Nat.toDigits 10 n ≠ [] ∧ (∀ c ∈ Nat.toDigits 10 n, isdigit c = true) ∧
      ∀ tl, parseDigits 0 (Nat.toDigits 10 n ++ tl) = parseDigits n tl := by
  obtain ⟨l, hl, hne, hdig, hval⟩ := toDigitsCore_spec (n + 1) n [] (by omega)
  have hl2 : Nat.toDigits 10 n = l := by simpa [Nat.toDigits] using hl
  rw [hl2]
  refine ⟨hne, hdig, ?_⟩
  intro tl
  simpa using hval 0 tl

theorem parseDigits_of_head (n : Nat) (tl : Str) (h : ∀ c ∈ tl.head?, isdigit c = false) :
    parseDigits n tl = n := by
  cases tl with
  | nil => rfl
  | cons c cs =>
    have hc : isdigit c = false := h c (by simp)
    simp [parseDigits, hc]

theorem isdigit_not_special (c : Char) (h : isdigit c = true) :
    isspace c = false ∧ c ≠ '-' ∧ c ≠ '+' ∧ c ≠ ',' ∧ c ≠ ':' ∧ c ≠ ';' := by
  refine ⟨?_, ?_, ?_, ?_, ?_, ?_⟩
  · by_contra hs
    simp only [isspace, Bool.not_eq_false, Bool.or_eq_true, decide_eq_true_eq] at hs
    rcases hs with ((((hs | hs) | hs) | hs) | hs) | hs <;> subst hs <;> exact absurd h (by decide)
  all_goals
    intro hs
    subst hs
    exact absurd h (by decide)

theorem toInt32_of_range (z : Int) (h1 : -(2 ^ 31) ≤ z) (h2 : z < 2 ^ 31) :
    toInt32 (max (-(2 : Int) ^ 63) (min ((2 : Int) ^ 63 - 1) z)) = z := by
  have e1 : max (-(2 : Int) ^ 63) (min ((2 : Int) ^ 63 - 1) z) = z := by
    rw [min_eq_right (by omega), max_eq_right (by omega)]
  rw [e1]
  unfold toInt32
  omega

/-- Reading back what `%i` printed gives the number, for every value of a 32-bit `int`;
the text may be followed by anything that does not start with a digit. -/
theorem atoi_printf_i (z : Int) (h1 : -(2 ^ 31) ≤ z) (h2 : z < 2 ^ 31) (tl : Str)
    (htl : ∀ c ∈ tl.head?, isdigit c = false) : atoi (printf_i z ++ tl) = z := by
  have hv : strtolValue (printf_i z ++ tl) = z := by
    unfold printf_i
    by_cases hz : z < 0
    · obtain ⟨_, _, hval⟩ := toDigits_spec z.natAbs
      have hsp : isspace '-' = false := by decide
      simp only [hz, if_true, List.cons_append, strtolValue, List.dropWhile, hsp]
      rw [hval tl, parseDigits_of_head _ _ htl]
      omega
    · obtain ⟨hne, hdig, hval⟩ := toDigits_spec z.toNat
      simp only [hz, if_false]
      have key : strtolValue (Nat.toDigits 10 z.toNat ++ tl)
          = (parseDigits 0 (Nat.toDigits 10 z.toNat ++ tl) : Int) := by
        cases hl : Nat.toDigits 10 z.toNat with
        | nil => exact absurd hl hne
        | cons c cs =>
          have hc : isdigit c = true := hdig c (by simp [hl])
          obtain ⟨hs, hm, hp, _⟩ := isdigit_not_special c hc
          simp only [strtolValue, List.cons_append, List.dropWhile, hs]
          split
          · rename_i heq; simp at heq; exact absurd heq.1 hm
          · rename_i heq; simp at heq; exact absurd heq.1 hp
          · rfl
      rw [key, hval tl, parseDigits_of_head _ _ htl]
      omega
  unfold atoi strtol
  rw [hv]
  exact toInt32_of_range z h1 h2

theorem printf_i_not_mem (z : Int) (c : Char) (hc : isdigit c = false) (hm : c ≠ '-') :
    c ∉ printf_i z := by
  unfold printf_i
  split_ifs
  · intro h
    rcases List.mem_cons.1 h with h | h
    · exact hm h
    · have := (toDigits_spec z.natAbs).2.1 c h
      simp [this] at hc
  · intro h
    have := (toDigits_spec z.toNat).2.1 c h
    simp [this] at hc

theorem printf_i_ne_nil (z : Int) : printf_i z ≠ [] := by
  unfold printf_i
  split_ifs
  · simp
  · exact (toDigits_spec z.toNat).1

/-! ## The loop of `run_filters`, token by token -/

theorem exec_fst (avail : Str → Bool) (n : Str) (c : List EngineCall) :
    (execute_process_module avail n c).1 = avail n := by
  unfold execute_process_module
  split_ifs with h <;> simp [h]

theorem exec_snd (avail : Str → Bool) (n : Str) (c : List EngineCall) :
    (execute_process_module avail n c).2 =
      c ++ (EngineCall.process_func_exists n ::
        (if avail n then [EngineCall.process_func_run n] else [])) := by
  unfold execute_process_module
  split_ifs with h <;> simp

/-- What a token does to the state is what it does to the initial state, put after what
is already there. -/
theorem step_eq (avail : Str → Bool) (st : FilterState) (t : Str) :
    run_filters_step avail st t =
      { calls := st.calls ++ (run_filters_step avail initState t).calls,
        processing := applyDesc st.processing (run_filters_step avail initState t).processing,
        r := st.r && (run_filters_step avail initState t).r } := by
  rcases st with ⟨c, p, r⟩
  unfold run_filters_step
  by_cases h1 : gwy_strequal t "pc".toList = true
  · rw [if_pos h1, if_pos h1]; simp [exec_fst, exec_snd, initState, applyDesc, STR_APPEND]
  rw [if_neg h1, if_neg h1]
  by_cases h2 : gwy_strequal t "melc".toList = true
  · rw [if_pos h2, if_pos h2]; simp [exec_fst, exec_snd, initState, applyDesc, STR_APPEND]
  rw [if_neg h2, if_neg h2]
  by_cases h3 : gwy_strequal t "sr".toList = true
  · rw [if_pos h3, if_pos h3]; simp [exec_fst, exec_snd, initState, applyDesc, STR_APPEND]
  rw [if_neg h3, if_neg h3]
  by_cases h4 :  g_str_has_prefix t "poly".toList = true
  · rw [if_pos h4, if_pos h4]
    cases ha : g_strrstr (some t) ':' with
    | none => simp [g_strrstr, initState, applyDesc]
    | some pa =>
      cases hb : g_strrstr (some pa) ',' with
      | none => simp [hb, initState, applyDesc]
      | some pb =>
        simp only [hb]
        split_ifs <;> simp [exec_fst, exec_snd, initState, applyDesc, STR_APPEND]
  rw [if_neg h4, if_neg h4]
  by_cases h5 :  g_str_has_prefix t "mean".toList = true
  · rw [if_pos h5, if_pos h5]
    cases ha : g_strrstr (some t) ':' with
    | none => simp [initState, applyDesc]
    | some pa =>
      simp only []
      split_ifs <;> simp [initState, applyDesc, STR_APPEND]
  rw [if_neg h5, if_neg h5]
  by_cases h6 :  g_str_has_prefix t "any".toList = true
  · rw [if_pos h6, if_pos h6]
    cases ha : g_strrstr (some t) ':' with
    | none => simp [initState, applyDesc]
    | some pa =>
      simp only [exec_fst, exec_snd]
      split_ifs <;> simp_all [initState, applyDesc, STR_APPEND]
  rw [if_neg h6, if_neg h6]
  simp [initState, applyDesc]

theorem has_prefix_poly (t : Str) (h :  g_str_has_prefix t "poly".toList = true) :
    ∃ rest, t = 'p' :: 'o' :: 'l' :: 'y' :: rest := by
  unfold g_str_has_prefix at h
  rw [List.isPrefixOf_iff_prefix] at h
  obtain ⟨r, hr⟩ := h
  exact ⟨r, hr.symm⟩

theorem has_prefix_any (t : Str) (h :  g_str_has_prefix t "any".toList = true) :
    ∃ rest, t = 'a' :: 'n' :: 'y' :: rest := by
  unfold g_str_has_prefix at h
  rw [List.isPrefixOf_iff_prefix] at h
  obtain ⟨r, hr⟩ := h
  exact ⟨r, hr.symm⟩

/-- A poly token in which a colon and, after the last colon, a comma are found. -/
theorem step_poly (avail : Str → Bool) (st : FilterState) (t pa pb : Str)
    (hp :  g_str_has_prefix t "poly".toList = true)
    (ha : strrchrSuffix ':' t = some pa) (hb : strrchrSuffix ',' pa = some pb) :
    run_filters_step avail st t =
      if atoi pa.tail < 0 ∨ resolvedRowDegree (atoi pa.tail) (atoi pb.tail) < 0 then
        { st with r := false }
      else
        { calls := st.calls ++ FilterOp.engineCalls avail
            (FilterOp.PolyLevel (atoi pa.tail)
              (resolvedRowDegree (atoi pa.tail) (atoi pb.tail))),
          processing := STR_APPEND st.processing
            (FilterOp.PolyLevel (atoi pa.tail)
              (resolvedRowDegree (atoi pa.tail) (atoi pb.tail))).description,
          r := st.r && avail "polylevel".toList } := by
  obtain ⟨rest, rfl⟩ := has_prefix_poly t hp
  have g1 := ptrdiff_guard ':' _ pa ha (by simp)
  have l1 := strrchrSuffix_length_le ':' _ pa ha
  have l2 := strrchrSuffix_length_le ',' _ pb hb
  have g2 : ptrdiff ('p' :: 'o' :: 'l' :: 'y' :: rest) pb + 1
      < ((List.length ('p' :: 'o' :: 'l' :: 'y' :: rest) : Nat) : Int) := by
    unfold ptrdiff
    simp only [List.length_cons] at l1 ⊢
    omega
  unfold run_filters_step
  have e1 : gwy_strequal ('p' :: 'o' :: 'l' :: 'y' :: rest) "pc".toList = false := by
    simp [gwy_strequal]
  have e2 : gwy_strequal ('p' :: 'o' :: 'l' :: 'y' :: rest) "melc".toList = false := by
    simp [gwy_strequal]
  have e3 : gwy_strequal ('p' :: 'o' :: 'l' :: 'y' :: rest) "sr".toList = false := by
    simp [gwy_strequal]
  rw [e1, e2, e3, hp]
  simp only [Bool.false_eq_true, if_false, if_true, g_strrstr, ha, hb, g1, g2]
  unfold resolvedRowDegree
  split_ifs <;>
    simp [exec_fst, exec_snd, FilterOp.engineCalls, FilterOp.settings, FilterOp.moduleName,
      FilterOp.description]

theorem step_unknown (avail : Str → Bool) (st : FilterState) (t : Str)
    (h : isRecognisedToken t = false) : run_filters_step avail st t = st := by
  unfold isRecognisedToken at h
  simp only [Bool.or_eq_false_iff] at h
  obtain ⟨⟨⟨⟨⟨h1, h2⟩, h3⟩, h4⟩, h5⟩, h6⟩ := h
  unfold run_filters_step
  rw [h1, h2, h3, h4, h5, h6]
  simp

theorem loop_nil (avail : Str → Bool) (st : FilterState) :
    run_filters_loop avail st [] = st := rfl

theorem loop_cons (avail : Str → Bool) (st : FilterState) (t : Str) (ts : List Str) :
    run_filters_loop avail st (t :: ts) =
      run_filters_loop avail (run_filters_step avail st t) ts := rfl

theorem loop_append (avail : Str → Bool) (st : FilterState) (s1 s2 : List Str) :
    run_filters_loop avail st (s1 ++ s2) =
      run_filters_loop avail (run_filters_loop avail st s1) s2 := by
  unfold run_filters_loop
  exact List.foldl_append _ _ _ _

/-- The calls and the result of the loop do not depend on the state it starts from. -/
theorem loop_eq (avail : Str → Bool) (ts : List Str) : ∀ st : FilterState,
    (run_filters_loop avail st ts).calls
        = st.calls ++ (run_filters_loop avail initState ts).calls ∧
      (run_filters_loop avail st ts).r
        = (st.r && (run_filters_loop avail initState ts).r) := by
  induction ts with
  | nil => intro st; simp [loop_nil, initState]
  | cons t ts ih =>
    intro st
    rw [loop_cons, loop_cons]
    have h1 := ih (run_filters_step avail st t)
    have h2 := ih (run_filters_step avail initState t)
    rw [h1.1, h1.2, h2.1, h2.2, step_eq avail st t]
    simp [Bool.and_assoc]

theorem joinTokens_cons (t : Str) (ts : List Str) (h : ts ≠ []) :
    joinTokens (t :: ts) = t ++ EXPORT_FILTER_DELIMITER :: joinTokens ts := by
  cases ts with
  | nil => exact absurd rfl h
  | cons u us => rfl

theorem splitAll_joinTokens (ts : List Str) (hne : ts ≠ [])
    (h : ∀ t ∈ ts, EXPORT_FILTER_DELIMITER ∉ t) :
    splitAll EXPORT_FILTER_DELIMITER (joinTokens ts) = ts := by
  induction ts with
  | nil => exact absurd rfl hne
  | cons t ts ih =>
    cases ts with
    | nil =>
      simp only [joinTokens]
      exact splitAll_of_not_mem _ _ (h t (by simp))
    | cons u us =>
      rw [joinTokens_cons _ _ (by simp), splitAll_append_delim _ _ _ (h t (by simp)),
        ih (by simp) (fun x hx => h x (by simp [hx]))]

/-- Splitting the joined tokens gives the tokens back, when no token is empty or holds
the delimiter. -/
theorem strsplitPieces_joinTokens (ts : List Str)
    (h : ∀ t ∈ ts, t ≠ [] ∧ EXPORT_FILTER_DELIMITER ∉ t) :
    strsplitPieces (joinTokens ts) EXPORT_FILTER_DELIMITER = ts := by
  cases ts with
  | nil => simp [joinTokens, strsplitPieces]
  | cons t ts =>
    have hne : joinTokens (t :: ts) ≠ [] := by
      cases ts with
      | nil => simpa [joinTokens] using (h t (by simp)).1
      | cons u us => rw [joinTokens_cons _ _ (by simp)]; simp
    unfold strsplitPieces
    rw [if_neg hne]
    exact splitAll_joinTokens _ (by simp) (fun x hx => (h x hx).2)

theorem poly_token_pointers (x y : Int) :
    strrchrSuffix ':' (FilterOp.PolyLevel x y).token
        = some (':' :: (printf_i x ++ ',' :: printf_i y)) ∧
      strrchrSuffix ',' (':' :: (printf_i x ++ ',' :: printf_i y))
        = some (',' :: printf_i y) := by
  constructor
  · have h : ':' ∉ printf_i x ++ ',' :: printf_i y := by
      intro hm
      rcases List.mem_append.1 hm with hm | hm
      · exact printf_i_not_mem x ':' (by decide) (by decide) hm
      · rcases List.mem_cons.1 hm with hm | hm
        · exact absurd hm (by decide)
        · exact printf_i_not_mem y ':' (by decide) (by decide) hm
    have e : (FilterOp.PolyLevel x y).token
        = "poly".toList ++ ':' :: (printf_i x ++ ',' :: printf_i y) := by
      simp [FilterOp.token]
    rw [e]
    exact strrchrSuffix_append ':' _ _ h
  · have h : ',' ∉ printf_i y := printf_i_not_mem y ',' (by decide) (by decide)
    have := strrchrSuffix_append ',' (':' :: printf_i x) (printf_i y) h
    simpa using this

theorem token_ne_nil_no_delim (op : FilterOp) :
    op.token ≠ [] ∧ EXPORT_FILTER_DELIMITER ∉ op.token := by
  cases op with
  | PlaneCorrect => exact ⟨by decide, by decide⟩
  | MedianLineCorrect => exact ⟨by decide, by decide⟩
  | ScarRemove => exact ⟨by decide, by decide⟩
  | PolyLevel x y =>
    constructor
    · simp [FilterOp.token]
    · have hx := printf_i_not_mem x ';' (by decide) (by decide)
      have hy := printf_i_not_mem y ';' (by decide) (by decide)
      simp [FilterOp.token, EXPORT_FILTER_DELIMITER, hx, hy]

/-- One well-formed token: the expected engine calls are made, the description is
appended, and the result is combined with the availability of the module. -/
theorem step_op (avail : Str → Bool) (st : FilterState) (op : FilterOp)
    (h : op.WellFormed) :
    run_filters_step avail st op.token =
      { calls := st.calls ++ op.engineCalls avail,
        processing := STR_APPEND st.processing op.description,
        r := st.r && avail op.moduleName } := by
  cases op with
  | PlaneCorrect =>
    simp [run_filters_step, FilterOp.token, gwy_strequal, exec_fst, exec_snd,
      FilterOp.engineCalls, FilterOp.settings, FilterOp.moduleName, FilterOp.description]
  | MedianLineCorrect =>
    simp [run_filters_step, FilterOp.token, gwy_strequal, exec_fst, exec_snd,
      FilterOp.engineCalls, FilterOp.settings, FilterOp.moduleName, FilterOp.description]
  | ScarRemove =>
    simp [run_filters_step, FilterOp.token, gwy_strequal, exec_fst, exec_snd,
      FilterOp.engineCalls, FilterOp.settings, FilterOp.moduleName, FilterOp.description]
  | PolyLevel x y =>
    obtain ⟨hx0, hx1, hy0, hy1⟩ := h
    obtain ⟨ha, hb⟩ := poly_token_pointers x y
    have hp :  g_str_has_prefix (FilterOp.PolyLevel x y).token "poly".toList = true := by
      simp [FilterOp.token, g_str_has_prefix, List.isPrefixOf]
    have ea : atoi (printf_i x ++ ',' :: printf_i y) = x :=
      atoi_printf_i x (by omega) hx1 _ (by simp; decide)
    have eb : atoi (printf_i y) = y := by
      have := atoi_printf_i y (by omega) hy1 [] (by simp)
      simpa using this
    rw [step_poly avail st _ _ _ hp ha hb]
    simp only [List.tail_cons, ea, eb]
    have er : resolvedRowDegree x y = y := by
      unfold resolvedRowDegree
      rw [if_neg (by omega)]
    rw [er, if_neg (by omega)]
    rfl

theorem modulesQueried_append (a b : List EngineCall) :
    modulesQueried (a ++ b) = modulesQueried a ++ modulesQueried b := by
  induction a with
  | nil => rfl
  | cons c cs ih => cases c <;> simp [modulesQueried, ih]

theorem modulesRun_append (a b : List EngineCall) :
    modulesRun (a ++ b) = modulesRun a ++ modulesRun b := by
  induction a with
  | nil => rfl
  | cons c cs ih => cases c <;> simp [modulesRun, ih]

theorem modulesQueried_engineCalls (avail : Str → Bool) (op : FilterOp) :
    modulesQueried (op.engineCalls avail) = [op.moduleName] := by
  unfold FilterOp.engineCalls
  rw [modulesQueried_append]
  have h1 : modulesQueried op.settings = [] := by cases op <;> rfl
  rw [h1]
  by_cases h : avail op.moduleName = true <;> simp [modulesQueried, h]

theorem modulesRun_engineCalls (avail : Str → Bool) (op : FilterOp) :
    modulesRun (op.engineCalls avail) = [op.moduleName].filter avail := by
  unfold FilterOp.engineCalls
  rw [modulesRun_append]
  have h1 : modulesRun op.settings = [] := by cases op <;> rfl
  rw [h1]
  by_cases h : avail op.moduleName = true <;> simp [modulesRun, h]

theorem loop_ops (avail : Str → Bool) (ops : List FilterOp)
    (h : ∀ op ∈ ops, op.WellFormed) : ∀ st : FilterState,
    run_filters_loop avail st (ops.map FilterOp.token) =
      { calls := st.calls ++ expectedCalls avail ops,
        processing := expectedTrace st.processing ops,
        r := st.r && ops.all (fun op => avail op.moduleName) } := by
  induction ops with
  | nil => intro st; simp [loop_nil, expectedCalls, expectedTrace]
  | cons op ops ih =>
    intro st
    rw [List.map_cons, loop_cons, step_op avail st op (h op (by simp)),
      ih (fun o ho => h o (by simp [ho]))]
    simp [expectedCalls, expectedTrace, Bool.and_assoc]

theorem expectedCalls_queried (avail : Str → Bool) (ops : List FilterOp) :
    modulesQueried (expectedCalls avail ops) = ops.map FilterOp.moduleName := by
  induction ops with
  | nil => rfl
  | cons op ops ih =>
    simp [expectedCalls, modulesQueried_append, modulesQueried_engineCalls, ih]

theorem expectedCalls_run (avail : Str → Bool) (ops : List FilterOp) :
    modulesRun (expectedCalls avail ops) = (ops.map FilterOp.moduleName).filter avail := by
  induction ops with
  | nil => rfl
  | cons op ops ih =>
    rw [expectedCalls, modulesRun_append, modulesRun_engineCalls, ih, List.map_cons,
      ← List.filter_append]
    rfl

/-- C1: for a filter spec that lists well-formed tokens (`pc`, `melc`, `sr`, `poly:x,y`
with positive degrees), `run_filters` calls `execute_process_module` once per token, in
the order of the tokens, with the modules `level`, `line_correct_median`, `scars_remove`
and `polylevel` (the latter after writing column degree `x`, row degree `y` and degree cap
12 to the settings); the modules run are those of them the engine has; the descriptions
are appended to the trace in the same order; the default spec runs `level`,
`line_correct_median`, `scars_remove`, `line_correct_median`, `level`. -/
theorem run_filters_well_formed (avail : Str → Bool) (processing : Option Str)
    (ops : List FilterOp) (h : ∀ op ∈ ops, op.WellFormed) :
    (run_filters avail (some (filterSpec ops)) processing).calls = expectedCalls avail ops ∧
    modulesQueried (run_filters avail (some (filterSpec ops)) processing).calls
      = ops.map FilterOp.moduleName ∧
    modulesRun (run_filters avail (some (filterSpec ops)) processing).calls
      = (ops.map FilterOp.moduleName).filter avail ∧
    (run_filters avail (some (filterSpec ops)) processing).processing
      = expectedTrace processing ops ∧
    modulesRun (run_filters (fun _ => true) (some EXPORT_DEFAULT_FILTERLIST) none).calls
      = ["level".toList, "line_correct_median".toList, "scars_remove".toList,
         "line_correct_median".toList, "level".toList] ∧
    (run_filters (fun _ => true) (some EXPORT_DEFAULT_FILTERLIST) none).processing
      = some ("Plane level, Median line correct, Scars remove, "
          ++ "Median line correct, Plane level").toList := by
  have hs : strsplitPieces (filterSpec ops) EXPORT_FILTER_DELIMITER = ops.map FilterOp.token := by
    unfold filterSpec
    apply strsplitPieces_joinTokens
    intro t ht
    obtain ⟨op, _, rfl⟩ := List.mem_map.1 ht
    exact token_ne_nil_no_delim op
  have hr : run_filters avail (some (filterSpec ops)) processing =
      { calls := expectedCalls avail ops,
        processing := expectedTrace processing ops,
        r := ops.all (fun op => avail op.moduleName) } := by
    unfold run_filters
    simp only [g_strsplit, hs]
    rw [loop_ops avail ops h]
    simp
  rw [hr]
  refine ⟨rfl, expectedCalls_queried avail ops, expectedCalls_run avail ops, rfl, ?_, ?_⟩
  · decide
  · decide

/-- Witness for C1: the spec `pc;poly:2,3;sr`. -/
theorem run_filters_well_formed_witness :
    (run_filters (fun _ => true) (some "pc;poly:2,3;sr".toList) none).calls
      = expectedCalls (fun _ => true)
          [FilterOp.PlaneCorrect, FilterOp.PolyLevel 2 3, FilterOp.ScarRemove] ∧
    (run_filters (fun _ => true) (some "pc;poly:2,3;sr".toList) none).processing
      = some "Plane level, Polynomial level: (2,3), Scars remove".toList :=
  have h := run_filters_well_formed (fun _ => true) none
    [FilterOp.PlaneCorrect, FilterOp.PolyLevel 2 3, FilterOp.ScarRemove]
    (by
      intro op hop
      simp only [List.mem_cons, List.mem_singleton, List.not_mem_nil, or_false] at hop
      rcases hop with rfl | rfl | rfl
      · trivial
      · exact ⟨by decide, by decide, by decide, by decide⟩
      · trivial)
  ⟨h.1, h.2.2.2.1⟩

theorem loop_unknown (avail : Str → Bool) (ts : List Str)
    (h : ∀ t ∈ ts, isRecognisedToken t = false) : ∀ st : FilterState,
    run_filters_loop avail st ts = st := by
  induction ts with
  | nil => intro st; rfl
  | cons t ts ih =>
    intro st
    rw [loop_cons, step_unknown avail st t (h t (by simp))]
    exact ih (fun u hu => h u (by simp [hu])) st

theorem run_filters_filterSpec (avail : Str → Bool) (processing : Option Str)
    (ops : List FilterOp) (h : ∀ op ∈ ops, op.WellFormed) :
    run_filters avail (some (filterSpec ops)) processing =
      { calls := expectedCalls avail ops,
        processing := expectedTrace processing ops,
        r := ops.all (fun op => avail op.moduleName) } := by
  have hs : strsplitPieces (filterSpec ops) EXPORT_FILTER_DELIMITER = ops.map FilterOp.token := by
    unfold filterSpec
    apply strsplitPieces_joinTokens
    intro t ht
    obtain ⟨op, _, rfl⟩ := List.mem_map.1 ht
    exact token_ne_nil_no_delim op
  unfold run_filters
  simp only [g_strsplit, hs]
  rw [loop_ops avail ops h]
  simp

/-- C2, as the code has it: a spec string that is not empty and none of whose tokens is
of a recognised kind (`xyz`, `foo;;bar`) makes no engine call and leaves the trace as it
was; the five-operation chain is what runs when the spec is the default list itself. -/
theorem run_filters_unrecognised_spec (avail : Str → Bool) (fl : Str)
    (processing : Option Str) (_hne : fl ≠ [])
    (h : ∀ t ∈ strsplitPieces fl EXPORT_FILTER_DELIMITER, isRecognisedToken t = false) :
    (run_filters avail (some fl) processing).calls = [] ∧
    (run_filters avail (some fl) processing).processing = processing ∧
    modulesQueried (run_filters avail (some EXPORT_DEFAULT_FILTERLIST) processing).calls
      = ["level".toList, "line_correct_median".toList, "scars_remove".toList,
         "line_correct_median".toList, "level".toList] := by
  have e : run_filters avail (some fl) processing
      = { calls := [], processing := processing, r := true } := by
    unfold run_filters
    simp only [g_strsplit]
    exact loop_unknown avail _ h _
  rw [e]
  refine ⟨rfl, rfl, ?_⟩
  have hd := run_filters_filterSpec avail processing
    [FilterOp.PlaneCorrect, FilterOp.MedianLineCorrect, FilterOp.ScarRemove,
     FilterOp.MedianLineCorrect, FilterOp.PlaneCorrect]
    (by intro op hop; cases op <;> simp_all [FilterOp.WellFormed])
  have hq := congrArg (fun s => modulesQueried s.calls) hd
  simp only [expectedCalls_queried] at hq
  exact hq

/-- Witness for C2: the spec `xyz;;foo`. -/
theorem run_filters_unrecognised_spec_witness :
    (run_filters (fun _ => true) (some "xyz;;foo".toList) (some "Color Range: Full".toList)).calls
      = [] ∧
    (run_filters (fun _ => true) (some "xyz;;foo".toList)
        (some "Color Range: Full".toList)).processing
      = some "Color Range: Full".toList :=
  have h := run_filters_unrecognised_spec (fun _ => true) "xyz;;foo".toList
    (some "Color Range: Full".toList) (by decide) (by decide)
  ⟨h.1, h.2.1⟩

/-- C2 fails as stated: for the garbage spec `xyz` no module is run at all, so the
default five-operation chain is not executed. -/
theorem run_filters_garbage_not_default :
    modulesRun (run_filters (fun _ => true) (some "xyz".toList) none).calls = [] ∧
    modulesRun (run_filters (fun _ => true) (some "xyz".toList) none).calls
      ≠ ["level".toList, "line_correct_median".toList, "scars_remove".toList,
         "line_correct_median".toList, "level".toList] := by
  decide

/-- C3: the chain is best-effort and its result is a conjunction.  Running the tokens
`s1 ++ s2` makes the engine calls of `s1` followed by the calls `s2` makes when run alone,
whatever the tokens of `s1` are, and the result is the result for `s1` and the result for
`s2`; the spec `xyz;pc` runs the module `level`. -/
theorem run_filters_loop_append (avail : Str → Bool) (p p2 : Option Str)
    (s1 s2 : List Str) :
    (run_filters_loop avail { calls := [], processing := p, r := true } (s1 ++ s2)).calls
      = (run_filters_loop avail { calls := [], processing := p, r := true } s1).calls
        ++ (run_filters_loop avail { calls := [], processing := p2, r := true } s2).calls ∧
    (run_filters_loop avail { calls := [], processing := p, r := true } (s1 ++ s2)).r
      = ((run_filters_loop avail { calls := [], processing := p, r := true } s1).r
        && (run_filters_loop avail { calls := [], processing := p2, r := true } s2).r) ∧
    modulesRun (run_filters (fun _ => true) (some "xyz;pc".toList) none).calls
      = ["level".toList] := by
  refine ⟨?_, ?_, by decide⟩
  · rw [loop_append, (loop_eq avail s2 _).1,
      (loop_eq avail s2 { calls := [], processing := p2, r := true }).1]
    simp
  · rw [loop_append, (loop_eq avail s2 _).2,
      (loop_eq avail s2 { calls := [], processing := p2, r := true }).2]
    simp

/-- C4, the code at the failing input: the specs `xyz` and `xyz;pc` hold the unknown
token `xyz`, and `run_filters` returns TRUE for them when the engine has every module. -/
theorem run_filters_unknown_token_true :
    (run_filters (fun _ => true) (some "xyz".toList) none).r = true ∧
    (run_filters (fun _ => true) (some "xyz;pc".toList) none).r = true ∧
    isRecognisedToken "xyz".toList = false := by
  decide

/-- A poly token without a colon, or without a comma after its last colon. -/
theorem step_poly_incomplete (avail : Str → Bool) (st : FilterState) (t : Str)
    (hp :  g_str_has_prefix t "poly".toList = true)
    (h : strrchrSuffix ':' t = none ∨
      ∃ pa, strrchrSuffix ':' t = some pa ∧ strrchrSuffix ',' pa = none) :
    run_filters_step avail st t = { st with r := false } := by
  obtain ⟨rest, rfl⟩ := has_prefix_poly t hp
  unfold run_filters_step
  have e1 : gwy_strequal ('p' :: 'o' :: 'l' :: 'y' :: rest) "pc".toList = false := by
    simp [gwy_strequal]
  have e2 : gwy_strequal ('p' :: 'o' :: 'l' :: 'y' :: rest) "melc".toList = false := by
    simp [gwy_strequal]
  have e3 : gwy_strequal ('p' :: 'o' :: 'l' :: 'y' :: rest) "sr".toList = false := by
    simp [gwy_strequal]
  rw [e1, e2, e3, hp]
  rcases h with h | ⟨pa, h1, h2⟩
  · simp [g_strrstr, h]
  · simp [g_strrstr, h1, h2]

/-- C5, as the code has it: for every degree `x`, positive ones included, the token
`poly:x` without a comma is rejected: no engine call is made (`polylevel` is not
invoked), nothing is appended to the trace, and the result is FALSE; `poly:3` is such a
token. -/
theorem poly_without_comma_rejected (avail : Str → Bool) (st : FilterState) (x : Int) :
    (run_filters_step avail st ("poly:".toList ++ printf_i x)).calls = st.calls ∧
    (run_filters_step avail st ("poly:".toList ++ printf_i x)).processing = st.processing ∧
    (run_filters_step avail st ("poly:".toList ++ printf_i x)).r = false ∧
    "poly:".toList ++ printf_i 3 = "poly:3".toList := by
  have e : run_filters_step avail st ("poly:".toList ++ printf_i x) = { st with r := false } := by
    apply step_poly_incomplete
    · simp [ g_str_has_prefix, List.isPrefixOf]
    · right
      refine ⟨':' :: printf_i x, ?_, ?_⟩
      · have h : ':' ∉ printf_i x := printf_i_not_mem x ':' (by decide) (by decide)
        have := strrchrSuffix_append ':' "poly".toList (printf_i x) h
        simpa using this
      · apply strrchrSuffix_of_not_mem
        have h : ',' ∉ printf_i x := printf_i_not_mem x ',' (by decide) (by decide)
        simp [h]
  rw [e]
  exact ⟨rfl, rfl, rfl, by decide⟩

/-- C5 fails as stated: the token `poly:3` is not accepted as a square polynomial; the
module `polylevel` is not called, nothing is appended to the trace and the result of
the chain is FALSE. -/
theorem poly_3_rejected :
    run_filters (fun _ => true) (some "poly:3".toList) none
      = { calls := [], processing := none, r := false } := by
  decide

/-- C6, as the code has it: a poly token whose resolved column degree or row degree is
negative is rejected: no engine call is made (the settings are not written, `polylevel`
is not run), nothing is appended to the trace, and the result is FALSE.  The token is
`p:u,v` with `u,v` the text after the last colon and `v` the text after the last comma. -/
theorem poly_negative_degree_rejected (avail : Str → Bool) (st : FilterState)
    (p u v : Str) (hp :  g_str_has_prefix (p ++ ':' :: (u ++ ',' :: v)) "poly".toList = true)
    (hu : ':' ∉ u) (hv : ':' ∉ v ∧ ',' ∉ v)
    (hneg : atoi (u ++ ',' :: v) < 0 ∨
      resolvedRowDegree (atoi (u ++ ',' :: v)) (atoi v) < 0) :
    (run_filters_step avail st (p ++ ':' :: (u ++ ',' :: v))).calls = st.calls ∧
    (run_filters_step avail st (p ++ ':' :: (u ++ ',' :: v))).processing = st.processing ∧
    (run_filters_step avail st (p ++ ':' :: (u ++ ',' :: v))).r = false := by
  have ha : strrchrSuffix ':' (p ++ ':' :: (u ++ ',' :: v)) = some (':' :: (u ++ ',' :: v)) := by
    apply strrchrSuffix_append
    intro hm
    rcases List.mem_append.1 hm with hm | hm
    · exact hu hm
    · rcases List.mem_cons.1 hm with hm | hm
      · exact absurd hm (by decide)
      · exact hv.1 hm
  have hb : strrchrSuffix ',' (':' :: (u ++ ',' :: v)) = some (',' :: v) := by
    have := strrchrSuffix_append ',' (':' :: u) v hv.2
    simpa using this
  rw [step_poly avail st _ _ _ hp ha hb]
  simp only [List.tail_cons]
  rw [if_pos hneg]
  exact ⟨rfl, rfl, rfl⟩

/-- Witness for C6: the token `poly:-1,2`. -/
theorem poly_negative_degree_rejected_witness :
    (run_filters_step (fun _ => true) initState "poly:-1,2".toList).calls = [] ∧
    (run_filters_step (fun _ => true) initState "poly:-1,2".toList).processing = none ∧
    (run_filters_step (fun _ => true) initState "poly:-1,2".toList).r = false :=
  poly_negative_degree_rejected (fun _ => true) initState "poly".toList "-1".toList
    "2".toList (by decide) (by decide) (by decide) (by decide)

/-- C6 fails as stated: the tokens `poly:0,0` and `poly:3,` are not rejected; `polylevel`
is run with degrees `(0,0)` and `(3,0)`, the description is appended and the result is
TRUE. -/
theorem poly_zero_degree_accepted :
    run_filters (fun _ => true) (some "poly:0,0".toList) none =
      { calls := (FilterOp.PolyLevel 0 0).engineCalls (fun _ => true),
        processing := some "Polynomial level: (0,0)".toList,
        r := true } ∧
    run_filters (fun _ => true) (some "poly:3,".toList) none =
      { calls := (FilterOp.PolyLevel 3 0).engineCalls (fun _ => true),
        processing := some "Polynomial level: (3,0)".toList,
        r := true } ∧
    modulesRun (run_filters (fun _ => true) (some "poly:0,0".toList) none).calls
      = ["polylevel".toList] := by
  decide

/-- An any token with a colon: the text after the last colon is the module name. -/
theorem step_any (avail : Str → Bool) (st : FilterState) (p name : Str)
    (hp :  g_str_has_prefix (p ++ ':' :: name) "any".toList = true) (hn : ':' ∉ name) :
    run_filters_step avail st (p ++ ':' :: name) =
      if avail name = true then
        { calls := st.calls ++
            [EngineCall.process_func_exists name, EngineCall.process_func_run name],
          processing := STR_APPEND st.processing name,
          r := st.r }
      else
        { calls := st.calls ++ [EngineCall.process_func_exists name],
          processing := st.processing,
          r := false } := by
  have ha := strrchrSuffix_append ':' p name hn
  obtain ⟨rest, hrest⟩ := has_prefix_any _ hp
  have g1 := ptrdiff_guard ':' _ _ ha (by rw [hrest]; simp)
  rw [hrest] at ha g1 hp ⊢
  have e1 : gwy_strequal ('a' :: 'n' :: 'y' :: rest) "pc".toList = false := by
    simp [gwy_strequal]
  have e2 : gwy_strequal ('a' :: 'n' :: 'y' :: rest) "melc".toList = false := by
    simp [gwy_strequal]
  have e3 : gwy_strequal ('a' :: 'n' :: 'y' :: rest) "sr".toList = false := by
    simp [gwy_strequal]
  have e4 :  g_str_has_prefix ('a' :: 'n' :: 'y' :: rest) "poly".toList = false := by
    simp [ g_str_has_prefix, List.isPrefixOf]
  have e5 :  g_str_has_prefix ('a' :: 'n' :: 'y' :: rest) "mean".toList = false := by
    simp [ g_str_has_prefix, List.isPrefixOf]
  unfold run_filters_step
  rw [e1, e2, e3, e4, e5, hp]
  simp only [Bool.false_eq_true, if_false, if_true, g_strrstr, ha, g1, List.tail_cons,
    exec_fst, exec_snd]
  by_cases hav : avail name = true <;> simp [hav]

/-- C8: for a token `any:<name>`, with `name` the text after the last colon: when the
engine has the module `name`, it is run once and `name` is appended to the trace (the
trace becomes `name` when it was empty and the old trace, a comma, a blank and `name`
otherwise); when it has not, no module is run, nothing is appended, the result of the
chain is FALSE, and the tokens after it are processed all the same.  The specs
`pc;any:fix_zero` and `any:fix_zero;pc` are evaluated. -/
theorem any_token (avail : Str → Bool) (st : FilterState) (p name : Str)
    (rest : List Str)
    (hp :  g_str_has_prefix (p ++ ':' :: name) "any".toList = true) (hn : ':' ∉ name) :
    (avail name = true →
      run_filters_loop avail st ((p ++ ':' :: name) :: rest) =
        run_filters_loop avail
          { calls := st.calls ++
              [EngineCall.process_func_exists name, EngineCall.process_func_run name],
            processing := STR_APPEND st.processing name,
            r := st.r } rest) ∧
    (avail name = false →
      run_filters_loop avail st ((p ++ ':' :: name) :: rest) =
        run_filters_loop avail
          { calls := st.calls ++ [EngineCall.process_func_exists name],
            processing := st.processing,
            r := false } rest ∧
      modulesRun (run_filters_step avail st (p ++ ':' :: name)).calls = modulesRun st.calls ∧
      (run_filters_step avail st (p ++ ':' :: name)).processing = st.processing ∧
      (run_filters_loop avail st ((p ++ ':' :: name) :: rest)).r = false ∧
      (run_filters_loop avail st ((p ++ ':' :: name) :: rest)).calls =
        st.calls ++ [EngineCall.process_func_exists name]
          ++ (run_filters_loop avail initState rest).calls) ∧
    (avail name = true →
      (run_filters_step avail st (p ++ ':' :: name)).calls =
        st.calls ++ [EngineCall.process_func_exists name, EngineCall.process_func_run name] ∧
      modulesRun (run_filters_step avail st (p ++ ':' :: name)).calls
        = modulesRun st.calls ++ [name] ∧
      (run_filters_step avail st (p ++ ':' :: name)).r = st.r ∧
      (st.processing = none →
        (run_filters_step avail st (p ++ ':' :: name)).processing = some name) ∧
      (∀ old : Str, st.processing = some old →
        (run_filters_step avail st (p ++ ':' :: name)).processing
          = some (old ++ ',' :: ' ' :: name))) ∧
    run_filters (fun _ => true) (some "pc;any:fix_zero".toList) none =
      { calls := [EngineCall.process_func_exists "level".toList,
                  EngineCall.process_func_run "level".toList,
                  EngineCall.process_func_exists "fix_zero".toList,
                  EngineCall.process_func_run "fix_zero".toList],
        processing := some "Plane level, fix_zero".toList,
        r := true } ∧
    run_filters (fun n => decide (n = "level".toList)) (some "any:fix_zero;pc".toList) none =
      { calls := [EngineCall.process_func_exists "fix_zero".toList,
                  EngineCall.process_func_exists "level".toList,
                  EngineCall.process_func_run "level".toList],
        processing := some "Plane level".toList,
        r := false } := by
  have hs := step_any avail st p name hp hn
  refine ⟨?_, ?_, ?_, by decide, by decide⟩
  · intro hav
    rw [loop_cons, hs, if_pos hav]
  · intro hav
    have hav2 : ¬ (avail name = true) := by simp [hav]
    rw [loop_cons, hs, if_neg hav2]
    refine ⟨rfl, ?_, rfl, ?_, ?_⟩
    · simp [modulesRun_append, modulesRun]
    · rw [(loop_eq avail rest _).2]
      rfl
    · rw [(loop_eq avail rest _).1]
  · intro hav
    rw [hs, if_pos hav]
    refine ⟨rfl, ?_, rfl, ?_, ?_⟩
    · simp [modulesRun_append, modulesRun]
    · intro hnone
      simp [hnone, STR_APPEND]
    · intro old hold
      simp [hold, STR_APPEND]

/-- Witness for C8: an engine that has `level` only, a trace that holds `Plane level`,
and the tokens `any:level` and `any:fix_zero`. -/
theorem any_token_witness :
    run_filters_loop (fun n => decide (n = "level".toList))
        { calls := [], processing := some "Plane level".toList, r := true }
        ["any:level".toList, "any:fix_zero".toList] =
      { calls := [EngineCall.process_func_exists "level".toList,
                  EngineCall.process_func_run "level".toList,
                  EngineCall.process_func_exists "fix_zero".toList],
        processing := some "Plane level, level".toList,
        r := false } ∧
    (run_filters_step (fun n => decide (n = "level".toList))
        { calls := [], processing := some "Plane level".toList, r := true }
        "any:level".toList).processing = some "Plane level, level".toList :=
  have h := any_token (fun n => decide (n = "level".toList))
    { calls := [], processing := some "Plane level".toList, r := true } "any".toList
    "level".toList ["any:fix_zero".toList] (by decide) (by decide)
  ⟨(h.1 (by decide)).trans (by decide),
   (h.2.2.1 (by decide)).2.2.2.2 "Plane level".toList rfl⟩

theorem no_leading_separator (s : Str) (h : s.head? ≠ some G_DIR_SEPARATOR) :
    s.dropWhile (fun c => c = G_DIR_SEPARATOR) = s ∧
      s.takeWhile (fun c => c = G_DIR_SEPARATOR) = [] := by
  cases s with
  | nil => simp
  | cons c cs =>
    have hc : c ≠ G_DIR_SEPARATOR := by simpa using h
    simp [List.dropWhile, List.takeWhile, hc]

theorem drop_append_trailing (s : Str) :
    dropTrailingSeparators s ++ trailingSeparators s = s := by
  unfold dropTrailingSeparators trailingSeparators
  rw [← List.reverse_append, List.takeWhile_append_dropWhile, List.reverse_reverse]

theorem dropTrailing_ne_nil (s : Str) (hne : s ≠ [])
    (h : s.head? ≠ some G_DIR_SEPARATOR) : dropTrailingSeparators s ≠ [] := by
  intro he
  unfold dropTrailingSeparators at he
  rw [List.reverse_eq_nil_iff, List.dropWhile_eq_nil_iff] at he
  cases s with
  | nil => exact hne rfl
  | cons c cs =>
    have := he c (by simp)
    simp at this
    exact h (by simp [this])

theorem g_strdelimit_blank (title : Str) :
    g_strdelimit title " ".toList '_' = sanitizedTitle title := by
  unfold g_strdelimit sanitizedTitle
  apply List.map_congr_left
  intro c _
  simp

theorem scalebar_scan_spec (x : ℝ) : ∀ (l : List ℕ) (prev : ℕ),
    (prev :: l).Pairwise (fun a b => a < b) →
    ∃ t ∈ prev :: l, scalebar_scan x (prev : ℝ) l = (t : ℝ) ∧
      ((prev : ℝ) ≤ x → (t : ℝ) ≤ x) ∧ (x < (prev : ℝ) → t = prev) ∧
      ∀ u ∈ prev :: l, (u : ℝ) ≤ x → u ≤ t := by
  intro l
  induction l with
  | nil =>
    intro prev _
    refine ⟨prev, by simp, rfl, fun h => h, fun _ => rfl, ?_⟩
    intro u hu _
    simp at hu
    omega
  | cons s rest ih =>
    intro prev hp
    rw [List.pairwise_cons] at hp
    obtain ⟨hlt, hrest⟩ := hp
    have hps : prev < s := hlt s (by simp)
    unfold scalebar_scan
    by_cases hx : x < (s : ℝ)
    · rw [if_pos hx]
      refine ⟨prev, by simp, rfl, fun h => h, fun _ => rfl, ?_⟩
      intro u hu hux
      rcases List.mem_cons.1 hu with rfl | hu
      · exact le_refl _
      · have h1 : s ≤ u := by
          rcases List.mem_cons.1 hu with rfl | hu2
          · exact le_refl _
          · exact le_of_lt ((List.pairwise_cons.1 hrest).1 u hu2)
        have h2 : (s : ℝ) ≤ (u : ℝ) := by exact_mod_cast h1
        linarith
    · rw [if_neg hx]
      have hsx : (s : ℝ) ≤ x := not_lt.1 hx
      obtain ⟨t, ht, he, h2, _, h4⟩ := ih s hrest
      refine ⟨t, List.mem_cons_of_mem _ ht, he, fun _ => h2 hsx, ?_, ?_⟩
      · intro hxp
        have : (prev : ℝ) < (s : ℝ) := by exact_mod_cast hps
        linarith
      · intro u hu hux
        rcases List.mem_cons.1 hu with rfl | hu
        · have := h4 s (by simp) hsx
          omega
        · exact h4 u hu hux

/-- The entry the scan selects: an entry of the table, the largest one not above `x`,
and the first entry when `x` is below all of them. -/
theorem scalebar_pick_spec (x : ℝ) :
    ∃ t ∈ scalebar_sizes, scalebar_pick x = (t : ℝ) ∧
      (1 ≤ x → (t : ℝ) ≤ x) ∧ (x < 1 → t = 1) ∧
      ∀ u ∈ scalebar_sizes, (u : ℝ) ≤ x → u ≤ t := by
  have h := scalebar_scan_spec x scalebar_sizes.tail 1 (by decide)
  obtain ⟨t, ht, he, h2, h3, h4⟩ := h
  refine ⟨t, ht, ?_, ?_, ?_, h4⟩
  · unfold scalebar_pick
    rw [← he]
    norm_num
  · intro hx
    exact h2 (by exact_mod_cast hx)
  · intro hx
    exact h3 (by exact_mod_cast hx)

theorem scalebar_auto_length_eq (real : ℝ) :
    scalebar_auto_length real =
      (scalebar_pick (0.42 * real / scalebarBase real) * scalebarBase real,
       scalebar_pick (0.42 * real / scalebarBase real) * scalebarBase real / real) := rfl

theorem scalebarBase_eq (real : ℝ) :
    scalebarBase real = (10 : ℝ) ^ (scalebarPower10 real : ℝ) * (10 : ℝ) ^ (1e-14 : ℝ) := by
  unfold scalebarBase
  exact Real.rpow_add (by norm_num) _ _

theorem fudge_gt_one : (1 : ℝ) < (10 : ℝ) ^ (1e-14 : ℝ) :=
  Real.one_lt_rpow (by norm_num) (by norm_num)

theorem scalebarBase_pos (real : ℝ) : 0 < scalebarBase real :=
  Real.rpow_pos_of_pos (by norm_num) _

/-- The power of ten below `0.42 * real`. -/
theorem pow_power10_le (real : ℝ) (h : 0 < real) :
    (10 : ℝ) ^ (scalebarPower10 real : ℝ) ≤ 0.42 * real := by
  have hv : (0 : ℝ) < 0.42 * real := by positivity
  have hfl : ((scalebarPower10 real : ℤ) : ℝ) ≤ Real.logb 10 (0.42 * real) := by
    unfold scalebarPower10
    have := Int.floor_le (Real.logb 10 (0.42 * real) / 3)
    push_cast
    linarith
  calc (10 : ℝ) ^ (scalebarPower10 real : ℝ)
      ≤ (10 : ℝ) ^ Real.logb 10 (0.42 * real) :=
        Real.rpow_le_rpow_of_exponent_le (by norm_num) hfl
    _ = 0.42 * real := Real.rpow_logb (by norm_num) (by norm_num) hv

/-- C10, as the code has it: for `real > 0` the display length is `t * 10^(p + 1e-14)`
with `p = 3 * floor(log10(0.42 * real) / 3)` and `t` the largest entry of the table not
above `x = 0.42 * real / 10^(p + 1e-14)`, or the first entry `1` when `x < 1`; it is at
most `0.42 * real` when `1 ≤ x` and at most `0.42 * real * 10^(1e-14)` always, and the
relative width lies in `(0, 0.42 * 10^(1e-14)]`. -/
theorem scalebar_auto_length_spec (real : ℝ) (h : 0 < real) :
    ∃ t ∈ scalebar_sizes,
      (scalebar_auto_length real).1 = (t : ℝ) * scalebarBase real ∧
      scalebarBase real
        = (10 : ℝ) ^ (((3 * ⌊Real.logb 10 (0.42 * real) / 3⌋ : ℤ) : ℝ) + 1e-14) ∧
      (1 ≤ 0.42 * real / scalebarBase real → (t : ℝ) ≤ 0.42 * real / scalebarBase real) ∧
      (0.42 * real / scalebarBase real < 1 → t = 1) ∧
      (∀ u ∈ scalebar_sizes, (u : ℝ) ≤ 0.42 * real / scalebarBase real → u ≤ t) ∧
      (1 ≤ 0.42 * real / scalebarBase real → (scalebar_auto_length real).1 ≤ 0.42 * real) ∧
      (scalebar_auto_length real).1 ≤ 0.42 * real * (10 : ℝ) ^ (1e-14 : ℝ) ∧
      (scalebar_auto_length real).2 = (scalebar_auto_length real).1 / real ∧
      0 < (scalebar_auto_length real).2 ∧
      (scalebar_auto_length real).2 ≤ 0.42 * (10 : ℝ) ^ (1e-14 : ℝ) := by
  have hb := scalebarBase_pos real
  have hv : (0 : ℝ) < 0.42 * real := by positivity
  obtain ⟨t, ht, he, h1, h2, h3⟩ := scalebar_pick_spec (0.42 * real / scalebarBase real)
  have htpos : 0 < t := by
    have hall : ∀ u ∈ scalebar_sizes, 0 < u := by decide
    exact hall t ht
  have htpos2 : (0 : ℝ) < (t : ℝ) := by exact_mod_cast htpos
  have hL : (scalebar_auto_length real).1 = (t : ℝ) * scalebarBase real := by
    rw [scalebar_auto_length_eq, he]
  have hxb : 0.42 * real / scalebarBase real * scalebarBase real = 0.42 * real :=
    div_mul_cancel₀ _ (ne_of_gt hb)
  have hle1 : 1 ≤ 0.42 * real / scalebarBase real →
      (scalebar_auto_length real).1 ≤ 0.42 * real := by
    intro hx
    rw [hL, ← hxb]
    exact mul_le_mul_of_nonneg_right (h1 hx) (le_of_lt hb)
  have hf := fudge_gt_one
  have hle2 : (scalebar_auto_length real).1 ≤ 0.42 * real * (10 : ℝ) ^ (1e-14 : ℝ) := by
    by_cases hx : 1 ≤ 0.42 * real / scalebarBase real
    · have := hle1 hx
      nlinarith
    · have ht1 : t = 1 := h2 (not_le.1 hx)
      rw [hL, ht1, scalebarBase_eq]
      have := pow_power10_le real h
      push_cast
      rw [one_mul]
      exact mul_le_mul_of_nonneg_right this (by linarith)
  have hLpos : 0 < (scalebar_auto_length real).1 := by
    rw [hL]
    exact mul_pos htpos2 hb
  refine ⟨t, ht, hL, rfl, h1, h2, h3, hle1, hle2, rfl, ?_, ?_⟩
  · exact div_pos hLpos h
  · show (scalebar_auto_length real).1 / real ≤ _
    rw [div_le_iff₀ h]
    linarith

/-- Witness for C10: a field of width 1000. -/
theorem scalebar_auto_length_spec_witness :
    ∃ t ∈ scalebar_sizes,
      (scalebar_auto_length 1000).1 = (t : ℝ) * scalebarBase 1000 ∧
      (scalebar_auto_length 1000).1 ≤ 0.42 * 1000 * (10 : ℝ) ^ (1e-14 : ℝ) := by
  obtain ⟨t, ht, h1, _, _, _, _, _, h2, _⟩ := scalebar_auto_length_spec 1000 (by norm_num)
  exact ⟨t, ht, h1, h2⟩

/-- C10 fails as stated: for `real = 50/21`, where `0.42 * real = 1`, the display length
is `10^(1e-14)`, which is above `0.42 * real`, and the relative width is above `0.42`. -/
theorem scalebar_exceeds_bound :
    (scalebar_auto_length (50 / 21)).1 = (10 : ℝ) ^ (1e-14 : ℝ) ∧
    0.42 * (50 / 21 : ℝ) < (scalebar_auto_length (50 / 21)).1 ∧
    0.42 < (scalebar_auto_length (50 / 21)).2 := by
  have hv : (0.42 : ℝ) * (50 / 21) = 1 := by norm_num
  have hp : scalebarPower10 (50 / 21) = 0 := by
    unfold scalebarPower10
    rw [hv]
    simp
  have hbase : scalebarBase (50 / 21) = (10 : ℝ) ^ (1e-14 : ℝ) := by
    rw [scalebarBase_eq, hp]
    simp
  have hf := fudge_gt_one
  have hx : 0.42 * (50 / 21 : ℝ) / scalebarBase (50 / 21) < 1 := by
    rw [hv, hbase, div_lt_one (by linarith)]
    exact hf
  obtain ⟨t, _, he, _, h2, _⟩ := scalebar_pick_spec (0.42 * (50 / 21 : ℝ) / scalebarBase (50 / 21))
  have ht1 : t = 1 := h2 hx
  have hL : (scalebar_auto_length (50 / 21)).1 = (10 : ℝ) ^ (1e-14 : ℝ) := by
    rw [scalebar_auto_length_eq, he, ht1, hbase]
    simp
  refine ⟨hL, ?_, ?_⟩
  · rw [hL, hv]
    exact hf
  · show (0.42 : ℝ) < (scalebar_auto_length (50 / 21)).1 / (50 / 21)
    rw [hL, lt_div_iff₀ (by norm_num)]
    rw [hv]
    exact hf

/-! ## Metadata, command line and channel naming -/

theorem joinDescriptions_append (x y : Str) (ds : List Str) :
    joinDescriptions ((x ++ y) :: ds) = x ++ joinDescriptions (y :: ds) := by
  cases ds with
  | nil => rfl
  | cons c cs => simp [joinDescriptions]

theorem foldl_STR_APPEND (ds : List Str) : ∀ a : Str,
    ds.foldl STR_APPEND (some a) = some (joinDescriptions (a :: ds)) := by
  induction ds with
  | nil => intro a; rfl
  | cons b ds ih =>
    intro a
    rw [List.foldl_cons]
    show List.foldl STR_APPEND (some (a ++ ", ".toList ++ b)) ds = _
    rw [ih, List.append_assoc, joinDescriptions_append, joinDescriptions_append]
    simp [joinDescriptions]

/-- C11, the code at the failing input: with the per-channel container `/1/meta` and the
channel-0 container `/0/meta` both present, the entries written for channel 1 are those
of `/0/meta`; with `/1/meta` present and `/0/meta` absent, nothing is written. -/
theorem save_metadata_ignores_channel_container :
    save_metadata "0.2".toList
      (fun k => if k = "/1/meta".toList then some ["\"A\" string \"1\"".toList]
        else if k = "/0/meta".toList then some ["\"B\" string \"2\"".toList] else none)
      "scan.sxm".toList "out/scan.sxm-1-H.txt".toList (some "Plane level".toList) 1
      = some ("out/scan.sxm-1-H.txt".toList,
          textOfLines ["\"Info:Metadata\" string \"Dumped by gwyexport v0.2\"".toList,
            "\"Info:Sourcefile\" string \"scan.sxm\"".toList,
            "\"B\" string \"2\"".toList,
            "\"Info:Processing\" string \"Plane level\"".toList]) ∧
    save_metadata "0.2".toList
      (fun k => if k = "/1/meta".toList then some ["\"A\" string \"1\"".toList] else none)
      "scan.sxm".toList "out/scan.sxm-1-H.txt".toList (some "Plane level".toList) 1
      = none ∧
    metaKey 1 = "/1/meta".toList := by
  decide

/-- C12: when the container of the channel is absent and the channel-0 container is
present, `save_metadata` writes the metadata file with these lines, in this order and
each followed by a newline: the line `"Info:Metadata" string "Dumped by gwyexport
v<version>"`, the line `"Info:Sourcefile" string "<input file>"`, the serialized entries
of the channel-0 container, and the line `"Info:Processing" string "<trace>"`, where the
trace built by `STR_APPEND` from the descriptions is the descriptions joined with a
comma and a blank. -/
theorem save_metadata_fallback (version inputfile metafilename : Str)
    (data : Str → Option (List Str)) (entries : List Str) (d : Str) (ds : List Str)
    (ci : Int) (_habsent : data (metaKey ci) = none)
    (h0 : data "/0/meta".toList = some entries) :
    save_metadata version data inputfile metafilename
        ((d :: ds).foldl STR_APPEND none) ci
      = some (metafilename,
          textOfLines
            (("\"Info:Metadata\" string \"Dumped by ".toList ++ PACKAGENAME ++ " v".toList
                ++ version ++ "\"".toList)
              :: ("\"Info:Sourcefile\" string \"".toList ++ inputfile ++ "\"".toList)
              :: (entries ++
                ["\"Info:Processing\" string \"".toList ++ joinDescriptions (d :: ds)
                  ++ "\"".toList]))) := by
  have ht : (d :: ds).foldl STR_APPEND none = some (joinDescriptions (d :: ds)) := by
    rw [List.foldl_cons]
    exact foldl_STR_APPEND ds d
  rw [ht]
  unfold save_metadata
  simp only [h0, printf_s, textOfLines]
  simp

/-- Witness for C12: channel 1 without a container of its own. -/
theorem save_metadata_fallback_witness :
    save_metadata "0.2".toList
      (fun k => if k = "/0/meta".toList then some ["\"B\" string \"2\"".toList] else none)
      "scan.sxm".toList "out/scan.sxm-1-H.txt".toList
      (["Color Range: Full".toList, "Plane level".toList].foldl STR_APPEND none) 1
      = some ("out/scan.sxm-1-H.txt".toList,
          textOfLines
            (("\"Info:Metadata\" string \"Dumped by ".toList ++ PACKAGENAME ++ " v".toList
                ++ "0.2".toList ++ "\"".toList)
              :: ("\"Info:Sourcefile\" string \"".toList ++ "scan.sxm".toList
                  ++ "\"".toList)
              :: (["\"B\" string \"2\"".toList] ++
                ["\"Info:Processing\" string \"".toList
                  ++ joinDescriptions ["Color Range: Full".toList, "Plane level".toList]
                  ++ "\"".toList]))) :=
  save_metadata_fallback "0.2".toList "scan.sxm".toList "out/scan.sxm-1-H.txt".toList
    (fun k => if k = "/0/meta".toList then some ["\"B\" string \"2\"".toList] else none)
    ["\"B\" string \"2\"".toList] "Color Range: Full".toList ["Plane level".toList] 1
    (by decide) (by decide)

/-- A token that is no option ends the loop: it and everything after it is the input
list. -/
theorem loop_at_file (gp : ExportGlobalParameters) (f : Str) (fs : List Str)
    (hf : isOptionToken f = false) :
    process_args_loop gp (f :: fs) =
      ({ gp with runmode := EXPORT_RUNMODE_IMG, filelist := gp.filelist ++ f :: fs },
       false) := by
  simp only [isOptionToken, stopOptions, flagOptions, valueOptions, List.cons_append,
    List.nil_append, List.mem_cons, List.mem_singleton, List.not_mem_nil, or_false,
    decide_eq_false_iff_not, not_or] at hf
  obtain ⟨h1, h2, h3, h4, h5, h6, h7, h8, h9, h10, h11, h12, h13, h14, h15, h16, h17, h18,
    h19⟩ := hf
  rw [process_args_loop.eq_def]
  simp only [gwy_strequal, h1, h2, h3, h4, h5, h6, h7, h8, h9, h10, h11, h12, h13, h14, h15,
    h16, h17, h18, h19, decide_False, Bool.or_self, Bool.false_eq_true, if_false]

/-- The loop at an option without a value. -/
theorem loop_flag (gp : ExportGlobalParameters) (rest : List Str) :
    process_args_loop gp ("--metadata".toList :: rest)
      = process_args_loop { gp with printmetafile := true } rest ∧
    process_args_loop gp ("-m".toList :: rest)
      = process_args_loop { gp with printmetafile := true } rest ∧
    process_args_loop gp ("--defaultfilters".toList :: rest)
      = process_args_loop { gp with filterlist := some EXPORT_DEFAULT_FILTERLIST } rest ∧
    process_args_loop gp ("--silentmode".toList :: rest)
      = process_args_loop { gp with silentmode := true } rest ∧
    process_args_loop gp ("-s".toList :: rest)
      = process_args_loop { gp with silentmode := true } rest := by
  refine ⟨?_, ?_, ?_, ?_, ?_⟩ <;>
  · rw [process_args_loop.eq_def]
    simp [gwy_strequal]

/-- What the option `--format` does with its value. -/
theorem loop_format (gp : ExportGlobalParameters) (v : Str) :
    ∃ gp1 : ExportGlobalParameters, gp1.filelist = gp.filelist ∧ gp1.runmode = gp.runmode ∧
      ∀ l, process_args_loop gp ("--format".toList :: v :: l) = process_args_loop gp1 l ∧
        process_args_loop gp ("-f".toList :: v :: l) = process_args_loop gp1 l := by
  by_cases e1 : v = "png".toList
  · refine ⟨{ gp with format := FileFormat.PNG }, rfl, rfl, fun l => ⟨?_, ?_⟩⟩ <;>
    · rw [process_args_loop.eq_def]
      simp [gwy_strequal, e1]
  · by_cases e2 : v = "jpg".toList
    · refine ⟨{ gp with format := FileFormat.JPEG }, rfl, rfl, fun l => ⟨?_, ?_⟩⟩ <;>
      · rw [process_args_loop.eq_def]
        simp [gwy_strequal, e2]
    · have e1b : ¬ v = ['p', 'n', 'g'] := e1
      have e2b : ¬ v = ['j', 'p', 'g'] := e2
      refine ⟨gp, rfl, rfl, fun l => ⟨?_, ?_⟩⟩ <;>
      · rw [process_args_loop.eq_def]
        simp [gwy_strequal, e1b, e2b]

/-- What the option `--colormap` does with its value. -/
theorem loop_colormap (gp : ExportGlobalParameters) (v : Str) :
    ∃ gp1 : ExportGlobalParameters, gp1.filelist = gp.filelist ∧ gp1.runmode = gp.runmode ∧
      ∀ l, process_args_loop gp ("--colormap".toList :: v :: l) = process_args_loop gp1 l ∧
        process_args_loop gp ("-c".toList :: v :: l) = process_args_loop gp1 l := by
  by_cases e1 : v = "auto".toList
  · refine ⟨{ gp with colormapping := CMAP_AUTO }, rfl, rfl, fun l => ⟨?_, ?_⟩⟩ <;>
    · rw [process_args_loop.eq_def]
      simp [gwy_strequal, e1]
  · by_cases e2 : v = "full".toList
    · refine ⟨{ gp with colormapping := CMAP_FULL }, rfl, rfl, fun l => ⟨?_, ?_⟩⟩ <;>
      · rw [process_args_loop.eq_def]
        simp [gwy_strequal, e2]
    · have e1b : ¬ v = ['a', 'u', 't', 'o'] := e1
      have e2b : ¬ v = ['f', 'u', 'l', 'l'] := e2
      refine ⟨{ gp with colormapping := CMAP_ADAPTIVE }, rfl, rfl, fun l => ⟨?_, ?_⟩⟩ <;>
      · rw [process_args_loop.eq_def]
        simp [gwy_strequal, e1b, e2b]

/-- The loop at an option with a value. -/
theorem loop_value (gp : ExportGlobalParameters) (a v : Str) (ha : a ∈ valueOptions) :
    ∃ gp1 : ExportGlobalParameters, gp1.filelist = gp.filelist ∧ gp1.runmode = gp.runmode ∧
      ∀ l, process_args_loop gp (a :: v :: l) = process_args_loop gp1 l := by
  simp only [valueOptions, List.mem_cons, List.mem_singleton, List.not_mem_nil,
    or_false] at ha
  rcases ha with rfl | rfl | rfl | rfl | rfl | rfl | rfl | rfl | rfl | rfl
  · exact ⟨{ gp with outpath := some v }, rfl, rfl, fun l => by
      rw [process_args_loop.eq_def]; simp [gwy_strequal]⟩
  · exact ⟨{ gp with outpath := some v }, rfl, rfl, fun l => by
      rw [process_args_loop.eq_def]; simp [gwy_strequal]⟩
  · exact ⟨{ gp with filterlist := some v }, rfl, rfl, fun l => by
      rw [process_args_loop.eq_def]; simp [gwy_strequal]⟩
  · exact ⟨{ gp with filterlist := some v }, rfl, rfl, fun l => by
      rw [process_args_loop.eq_def]; simp [gwy_strequal]⟩
  · obtain ⟨gp1, h1, h2, h3⟩ := loop_format gp v
    exact ⟨gp1, h1, h2, fun l => (h3 l).1⟩
  · obtain ⟨gp1, h1, h2, h3⟩ := loop_format gp v
    exact ⟨gp1, h1, h2, fun l => (h3 l).2⟩
  · exact ⟨{ gp with gradient := some v }, rfl, rfl, fun l => by
      rw [process_args_loop.eq_def]; simp [gwy_strequal]⟩
  · exact ⟨{ gp with gradient := some v }, rfl, rfl, fun l => by
      rw [process_args_loop.eq_def]; simp [gwy_strequal]⟩
  · obtain ⟨gp1, h1, h2, h3⟩ := loop_colormap gp v
    exact ⟨gp1, h1, h2, fun l => (h3 l).1⟩
  · obtain ⟨gp1, h1, h2, h3⟩ := loop_colormap gp v
    exact ⟨gp1, h1, h2, fun l => (h3 l).2⟩

/-- The loop at a flag option. -/
theorem loop_flag_mem (gp : ExportGlobalParameters) (a : Str) (ha : a ∈ flagOptions) :
    ∃ gp1 : ExportGlobalParameters, gp1.filelist = gp.filelist ∧ gp1.runmode = gp.runmode ∧
      ∀ l, process_args_loop gp (a :: l) = process_args_loop gp1 l := by
  simp only [flagOptions, List.mem_cons, List.mem_singleton, List.not_mem_nil,
    or_false] at ha
  rcases ha with rfl | rfl | rfl | rfl | rfl
  · exact ⟨{ gp with printmetafile := true }, rfl, rfl, fun l => (loop_flag gp l).1⟩
  · exact ⟨{ gp with printmetafile := true }, rfl, rfl, fun l => (loop_flag gp l).2.1⟩
  · exact ⟨{ gp with filterlist := some EXPORT_DEFAULT_FILTERLIST }, rfl, rfl,
      fun l => (loop_flag gp l).2.2.1⟩
  · exact ⟨{ gp with silentmode := true }, rfl, rfl, fun l => (loop_flag gp l).2.2.2.1⟩
  · exact ⟨{ gp with silentmode := true }, rfl, rfl, fun l => (loop_flag gp l).2.2.2.2⟩

/-- Options before the first input file: the loop over them neither returns nor touches
the input list and the run mode, and the loop over the whole argument list does what it
does over the options and then takes the rest as input files. -/
theorem loop_options_then_files (n : Nat) : ∀ (pre : List Str) (gp : ExportGlobalParameters)
    (f : Str) (fs : List Str), pre.length ≤ n → optionsOnly pre = true →
    isOptionToken f = false →
    (process_args_loop gp pre).2 = false ∧
    (process_args_loop gp pre).1.filelist = gp.filelist ∧
    (process_args_loop gp pre).1.runmode = gp.runmode ∧
    process_args_loop gp (pre ++ f :: fs) =
      ({ (process_args_loop gp pre).1 with
          runmode := EXPORT_RUNMODE_IMG, filelist := gp.filelist ++ f :: fs }, false) := by
  induction n with
  | zero =>
    intro pre gp f fs hl _ hf
    have : pre = [] := List.length_eq_zero.1 (by omega)
    subst this
    refine ⟨by rw [process_args_loop.eq_def], by rw [process_args_loop.eq_def],
      by rw [process_args_loop.eq_def], ?_⟩
    rw [List.nil_append, loop_at_file gp f fs hf, process_args_loop.eq_def gp []]
  | succ n ih =>
    intro pre gp f fs hl hp hf
    cases pre with
    | nil =>
      refine ⟨by rw [process_args_loop.eq_def], by rw [process_args_loop.eq_def],
        by rw [process_args_loop.eq_def], ?_⟩
      rw [List.nil_append, loop_at_file gp f fs hf, process_args_loop.eq_def gp []]
    | cons a rest =>
      unfold optionsOnly at hp
      by_cases ha : a ∈ flagOptions
      · rw [if_pos ha] at hp
        have hrl : rest.length ≤ n := by simp at hl; omega
        obtain ⟨gp1, e1, e2, e3⟩ := loop_flag_mem gp a ha
        obtain ⟨i1, i2, i3, i4⟩ := ih rest gp1 f fs hrl hp hf
        rw [List.cons_append, e3 rest, e3 (rest ++ f :: fs), i4, e1]
        exact ⟨i1, i2.trans e1, i3.trans e2, rfl⟩
      · rw [if_neg ha] at hp
        by_cases hv : a ∈ valueOptions
        · rw [if_pos hv] at hp
          cases rest with
          | nil => simp at hp
          | cons v rest2 =>
            simp only at hp
            have hrl : rest2.length ≤ n := by simp at hl; omega
            obtain ⟨gp1, e1, e2, e3⟩ := loop_value gp a v hv
            obtain ⟨i1, i2, i3, i4⟩ := ih rest2 gp1 f fs hrl hp hf
            rw [List.cons_append, List.cons_append, e3 rest2, e3 (rest2 ++ f :: fs), i4, e1]
            exact ⟨i1, i2.trans e1, i3.trans e2, rfl⟩
        · rw [if_neg hv] at hp
          simp at hp

/-- The consistency checks keep the input list, the run mode and the options that were
set, and fill in the defaults of those that were not. -/
theorem process_args_checks_fields (cwd : Str) (gp : ExportGlobalParameters)
    (h : gp.filelist ≠ []) :
    (process_args_checks cwd gp).filelist = gp.filelist ∧
    (process_args_checks cwd gp).runmode = gp.runmode ∧
    (process_args_checks cwd gp).printmetafile = gp.printmetafile ∧
    (process_args_checks cwd gp).silentmode = gp.silentmode ∧
    (process_args_checks cwd gp).format = gp.format ∧
    (process_args_checks cwd gp).outpath = some (gp.outpath.getD cwd) ∧
    (process_args_checks cwd gp).gradient = some (gp.gradient.getD "ReiGreen".toList) ∧
    (process_args_checks cwd gp).filterlist
      = some (gp.filterlist.getD EXPORT_DEFAULT_FILTERLIST) ∧
    (process_args_checks cwd gp).colormapping
      = (if gp.colormapping ≤ 0 then CMAP_AUTO else gp.colormapping) := by
  rcases gp with ⟨inp, outp, fmt, fl, gr, pm, sm, cm, nch, rm, files⟩
  have hl : ¬ files.length = 0 := fun e => h (List.length_eq_zero.1 e)
  unfold process_args_checks
  simp only [hl, if_false]
  cases outp <;> cases gr <;> cases fl <;> by_cases hc : cm ≤ 0 <;>
    first
    | (have hc0 : ¬ cm = 0 := by omega
       simp [hc, hc0])
    | simp [hc]

/-- The loop at the arguments of one option does what the option is documented to do
and goes on with the arguments after them. -/
theorem loop_option (long : Bool) (o : CliOption) (gp : ExportGlobalParameters)
    (l : List Str) :
    process_args_loop gp (o.args long ++ l) = process_args_loop (applyOption gp o) l := by
  cases o with
  | output p =>
    cases long <;> rw [process_args_loop.eq_def] <;>
      simp [CliOption.args, applyOption, gwy_strequal]
  | metadata =>
    cases long <;> rw [process_args_loop.eq_def] <;>
      simp [CliOption.args, applyOption, gwy_strequal]
  | filters f =>
    cases long <;> rw [process_args_loop.eq_def] <;>
      simp [CliOption.args, applyOption, gwy_strequal]
  | defaultFilters =>
    cases long <;> rw [process_args_loop.eq_def] <;>
      simp [CliOption.args, applyOption, gwy_strequal]
  | format v =>
    by_cases e1 : v = ['p', 'n', 'g']
    · cases long <;> rw [process_args_loop.eq_def] <;>
        simp [CliOption.args, applyOption, gwy_strequal, e1]
    · by_cases e2 : v = ['j', 'p', 'g']
      · cases long <;> rw [process_args_loop.eq_def] <;>
          simp [CliOption.args, applyOption, gwy_strequal, e2]
      · cases long <;> rw [process_args_loop.eq_def] <;>
          simp [CliOption.args, applyOption, gwy_strequal, e1, e2]
  | gradient g =>
    cases long <;> rw [process_args_loop.eq_def] <;>
      simp [CliOption.args, applyOption, gwy_strequal]
  | colormap v =>
    by_cases e1 : v = ['a', 'u', 't', 'o']
    · cases long <;> rw [process_args_loop.eq_def] <;>
        simp [CliOption.args, applyOption, gwy_strequal, e1]
    · by_cases e2 : v = ['f', 'u', 'l', 'l']
      · cases long <;> rw [process_args_loop.eq_def] <;>
          simp [CliOption.args, applyOption, gwy_strequal, e2]
      · cases long <;> rw [process_args_loop.eq_def] <;>
          simp [CliOption.args, applyOption, gwy_strequal, e1, e2]
  | silentmode =>
    cases long <;> rw [process_args_loop.eq_def] <;>
      simp [CliOption.args, applyOption, gwy_strequal]

/-- The loop over the arguments of a list of options applies them one after the other. -/
theorem loop_cliArgs (opts : List (Bool × CliOption)) : ∀ (gp : ExportGlobalParameters)
    (l : List Str),
    process_args_loop gp (cliArgs opts ++ l)
      = process_args_loop ((opts.map Prod.snd).foldl applyOption gp) l := by
  induction opts with
  | nil => intro gp l; rfl
  | cons o os ih =>
    intro gp l
    rw [cliArgs, List.append_assoc, loop_option, ih]
    rfl

/-- An argument list of options only spells a list of options. -/
theorem optionsOnly_cliArgs (n : Nat) : ∀ pre : List Str, pre.length ≤ n →
    optionsOnly pre = true → ∃ opts : List (Bool × CliOption), pre = cliArgs opts := by
  induction n with
  | zero =>
    intro pre hl _
    have : pre = [] := List.length_eq_zero.1 (by omega)
    exact ⟨[], this⟩
  | succ n ih =>
    intro pre hl hp
    cases pre with
    | nil => exact ⟨[], rfl⟩
    | cons a rest =>
      unfold optionsOnly at hp
      by_cases ha : a ∈ flagOptions
      · rw [if_pos ha] at hp
        obtain ⟨os, hos⟩ := ih rest (by simp at hl; omega) hp
        simp only [flagOptions, List.mem_cons, List.mem_singleton, List.not_mem_nil,
          or_false] at ha
        rcases ha with rfl | rfl | rfl | rfl | rfl
        · exact ⟨(true, CliOption.metadata) :: os, by rw [cliArgs, ← hos]; rfl⟩
        · exact ⟨(false, CliOption.metadata) :: os, by rw [cliArgs, ← hos]; rfl⟩
        · exact ⟨(true, CliOption.defaultFilters) :: os, by rw [cliArgs, ← hos]; rfl⟩
        · exact ⟨(true, CliOption.silentmode) :: os, by rw [cliArgs, ← hos]; rfl⟩
        · exact ⟨(false, CliOption.silentmode) :: os, by rw [cliArgs, ← hos]; rfl⟩
      · rw [if_neg ha] at hp
        by_cases hv : a ∈ valueOptions
        · rw [if_pos hv] at hp
          cases rest with
          | nil => simp at hp
          | cons v rest2 =>
            simp only at hp
            obtain ⟨os, hos⟩ := ih rest2 (by simp at hl; omega) hp
            simp only [valueOptions, List.mem_cons, List.mem_singleton, List.not_mem_nil,
              or_false] at hv
            rcases hv with rfl | rfl | rfl | rfl | rfl | rfl | rfl | rfl | rfl | rfl
            · exact ⟨(true, CliOption.output v) :: os, by rw [cliArgs, ← hos]; rfl⟩
            · exact ⟨(false, CliOption.output v) :: os, by rw [cliArgs, ← hos]; rfl⟩
            · exact ⟨(true, CliOption.filters v) :: os, by rw [cliArgs, ← hos]; rfl⟩
            · exact ⟨(false, CliOption.filters v) :: os, by rw [cliArgs, ← hos]; rfl⟩
            · exact ⟨(true, CliOption.format v) :: os, by rw [cliArgs, ← hos]; rfl⟩
            · exact ⟨(false, CliOption.format v) :: os, by rw [cliArgs, ← hos]; rfl⟩
            · exact ⟨(true, CliOption.gradient v) :: os, by rw [cliArgs, ← hos]; rfl⟩
            · exact ⟨(false, CliOption.gradient v) :: os, by rw [cliArgs, ← hos]; rfl⟩
            · exact ⟨(true, CliOption.colormap v) :: os, by rw [cliArgs, ← hos]; rfl⟩
            · exact ⟨(false, CliOption.colormap v) :: os, by rw [cliArgs, ← hos]; rfl⟩
        · rw [if_neg hv] at hp
          simp at hp

/-- The loop over options only leaves the configuration the options describe. -/
theorem loop_options_result (pre : List Str) (gp : ExportGlobalParameters)
    (hp : optionsOnly pre = true) :
    ∃ opts : List (Bool × CliOption), pre = cliArgs opts ∧
      (process_args_loop gp pre).1 = (opts.map Prod.snd).foldl applyOption gp := by
  obtain ⟨opts, ho⟩ := optionsOnly_cliArgs pre.length pre (le_refl _) hp
  refine ⟨opts, ho, ?_⟩
  have h := loop_cliArgs opts gp []
  rw [List.append_nil, ← ho] at h
  rw [h, process_args_loop.eq_def]

/-- The whole of `process_args` on options followed by input files. -/
theorem process_args_of_options (cwd a0 : Str) (opts : List (Bool × CliOption)) (f : Str)
    (fs : List Str) (hf : isOptionToken f = false) :
    process_args cwd (a0 :: (cliArgs opts ++ f :: fs)) glob_params_new
      = process_args_checks cwd
          { (opts.map Prod.snd).foldl applyOption glob_params_new with
            runmode := EXPORT_RUNMODE_IMG, filelist := f :: fs } := by
  unfold process_args
  simp only [List.tail_cons, loop_cliArgs, loop_at_file _ f fs hf]
  have hfl : ∀ (os : List CliOption) (gp : ExportGlobalParameters),
      (os.foldl applyOption gp).filelist = gp.filelist := by
    intro os
    induction os with
    | nil => intro gp; rfl
    | cons o os ih =>
      intro gp
      rw [List.foldl_cons, ih]
      cases o <;> simp [applyOption] <;> split_ifs <;> rfl
  simp [hfl, glob_params_new]

/-- C13: when the arguments after `argv[0]` are options (flags, and value options each
with its value, none of them help or version) followed by a token `f` that is no
option, `process_args` sets the input list to `f` and everything after it, in order,
whatever the later tokens look like, sets the run mode to image export, and the options
in force are those of the arguments before `f` (with the defaults for those not set):
the arguments before `f` spell a list of options, and the configuration is what these
options are documented to set, one after the other, starting from `glob_params_new`.
Five command lines are evaluated field by field. -/
theorem process_args_input_list (cwd a0 : Str) (pre : List Str) (f : Str) (fs : List Str)
    (hp : optionsOnly pre = true) (hf : isOptionToken f = false) :
    (process_args cwd (a0 :: (pre ++ f :: fs)) glob_params_new).filelist = f :: fs ∧
    (process_args cwd (a0 :: (pre ++ f :: fs)) glob_params_new).runmode
      = EXPORT_RUNMODE_IMG ∧
    process_args cwd (a0 :: (pre ++ f :: fs)) glob_params_new
      = process_args_checks cwd
          { (process_args_loop glob_params_new pre).1 with
            runmode := EXPORT_RUNMODE_IMG, filelist := f :: fs } ∧
    (process_args cwd (a0 :: (pre ++ f :: fs)) glob_params_new).printmetafile
      = (process_args_loop glob_params_new pre).1.printmetafile ∧
    (process_args cwd (a0 :: (pre ++ f :: fs)) glob_params_new).silentmode
      = (process_args_loop glob_params_new pre).1.silentmode ∧
    (process_args cwd (a0 :: (pre ++ f :: fs)) glob_params_new).format
      = (process_args_loop glob_params_new pre).1.format ∧
    (process_args cwd (a0 :: (pre ++ f :: fs)) glob_params_new).outpath
      = some ((process_args_loop glob_params_new pre).1.outpath.getD cwd) ∧
    (process_args cwd (a0 :: (pre ++ f :: fs)) glob_params_new).gradient
      = some ((process_args_loop glob_params_new pre).1.gradient.getD "ReiGreen".toList) ∧
    (process_args cwd (a0 :: (pre ++ f :: fs)) glob_params_new).filterlist
      = some ((process_args_loop glob_params_new pre).1.filterlist.getD
          EXPORT_DEFAULT_FILTERLIST) ∧
    (process_args cwd (a0 :: (pre ++ f :: fs)) glob_params_new).colormapping
      = (if (process_args_loop glob_params_new pre).1.colormapping ≤ 0 then CMAP_AUTO
          else (process_args_loop glob_params_new pre).1.colormapping) ∧
    (process_args "/cwd".toList
        ["gwyexport".toList, "-m".toList, "a.sxm".toList, "-s".toList, "--help".toList]
        glob_params_new).filelist
      = ["a.sxm".toList, "-s".toList, "--help".toList] ∧
    (∃ opts : List (Bool × CliOption), pre = cliArgs opts ∧
      (process_args_loop glob_params_new pre).1
        = (opts.map Prod.snd).foldl applyOption glob_params_new ∧
      process_args cwd (a0 :: (pre ++ f :: fs)) glob_params_new
        = process_args_checks cwd
            { (opts.map Prod.snd).foldl applyOption glob_params_new with
              runmode := EXPORT_RUNMODE_IMG, filelist := f :: fs }) ∧
    process_args "/cwd".toList
        ["gwyexport".toList, "-o".toList, "out".toList, "-m".toList, "-fl".toList,
         "pc;sr".toList, "-f".toList, "png".toList, "-g".toList, "Gray".toList,
         "-c".toList, "full".toList, "-s".toList, "a.sxm".toList, "-o".toList,
         "other".toList]
        glob_params_new =
      { inputfile := [], outpath := some "out".toList, format := FileFormat.PNG,
        filterlist := some "pc;sr".toList, gradient := some "Gray".toList,
        printmetafile := true, silentmode := true, colormapping := CMAP_FULL,
        n_channels := 0, runmode := EXPORT_RUNMODE_IMG,
        filelist := ["a.sxm".toList, "-o".toList, "other".toList] } ∧
    process_args "/cwd".toList
        ["gwyexport".toList, "--defaultfilters".toList, "--format".toList, "jpg".toList,
         "--colormap".toList, "bogus".toList, "b.sxm".toList]
        glob_params_new =
      { inputfile := [], outpath := some "/cwd".toList, format := FileFormat.JPEG,
        filterlist := some "pc;melc;sr;melc;pc".toList, gradient := some "ReiGreen".toList,
        printmetafile := false, silentmode := false, colormapping := CMAP_ADAPTIVE,
        n_channels := 0, runmode := EXPORT_RUNMODE_IMG,
        filelist := ["b.sxm".toList] } ∧
    process_args "/cwd".toList
        ["gwyexport".toList, "--output".toList, "out".toList, "--metadata".toList,
         "--silentmode".toList, "a.sxm".toList]
        glob_params_new =
      { inputfile := [], outpath := some "out".toList, format := FileFormat.JPEG,
        filterlist := some "pc;melc;sr;melc;pc".toList, gradient := some "ReiGreen".toList,
        printmetafile := true, silentmode := true, colormapping := CMAP_AUTO,
        n_channels := 0, runmode := EXPORT_RUNMODE_IMG,
        filelist := ["a.sxm".toList] } ∧
    process_args "/cwd".toList
        ["gwyexport".toList, "--filters".toList, "sr".toList, "--format".toList,
         "png".toList, "--gradient".toList, "Gray".toList, "a.sxm".toList]
        glob_params_new =
      { inputfile := [], outpath := some "/cwd".toList, format := FileFormat.PNG,
        filterlist := some "sr".toList, gradient := some "Gray".toList,
        printmetafile := false, silentmode := false, colormapping := CMAP_AUTO,
        n_channels := 0, runmode := EXPORT_RUNMODE_IMG,
        filelist := ["a.sxm".toList] } ∧
    process_args "/cwd".toList
        ["gwyexport".toList, "-fl".toList, "sr".toList, "--defaultfilters".toList,
         "-f".toList, "png".toList, "-f".toList, "jpg".toList, "a.sxm".toList]
        glob_params_new =
      { inputfile := [], outpath := some "/cwd".toList, format := FileFormat.JPEG,
        filterlist := some "pc;melc;sr;melc;pc".toList, gradient := some "ReiGreen".toList,
        printmetafile := false, silentmode := false, colormapping := CMAP_AUTO,
        n_channels := 0, runmode := EXPORT_RUNMODE_IMG,
        filelist := ["a.sxm".toList] } := by
  obtain ⟨_, _, _, h4⟩ :=
    loop_options_then_files pre.length pre glob_params_new f fs (le_refl _) hp hf
  have e : process_args cwd (a0 :: (pre ++ f :: fs)) glob_params_new
      = process_args_checks cwd
          { (process_args_loop glob_params_new pre).1 with
            runmode := EXPORT_RUNMODE_IMG, filelist := f :: fs } := by
    unfold process_args
    simp only [List.tail_cons, h4]
    rfl
  obtain ⟨c1, c2, c3, c4, c5, c6, c7, c8, c9⟩ := process_args_checks_fields cwd
    { (process_args_loop glob_params_new pre).1 with
      runmode := EXPORT_RUNMODE_IMG, filelist := f :: fs } (by simp)
  obtain ⟨opts, ho, hres⟩ := loop_options_result pre glob_params_new hp
  have e2 : process_args cwd (a0 :: (pre ++ f :: fs)) glob_params_new
      = process_args_checks cwd
          { (opts.map Prod.snd).foldl applyOption glob_params_new with
            runmode := EXPORT_RUNMODE_IMG, filelist := f :: fs } := by
    rw [e, hres]
  have i1 : process_args "/cwd".toList
        ["gwyexport".toList, "-o".toList, "out".toList, "-m".toList, "-fl".toList,
         "pc;sr".toList, "-f".toList, "png".toList, "-g".toList, "Gray".toList,
         "-c".toList, "full".toList, "-s".toList, "a.sxm".toList, "-o".toList,
         "other".toList]
        glob_params_new =
      { inputfile := [], outpath := some "out".toList, format := FileFormat.PNG,
        filterlist := some "pc;sr".toList, gradient := some "Gray".toList,
        printmetafile := true, silentmode := true, colormapping := CMAP_FULL,
        n_channels := 0, runmode := EXPORT_RUNMODE_IMG,
        filelist := ["a.sxm".toList, "-o".toList, "other".toList] } :=
    (process_args_of_options "/cwd".toList "gwyexport".toList
    [(false, CliOption.output "out".toList), (false, CliOption.metadata),
     (false, CliOption.filters "pc;sr".toList), (false, CliOption.format "png".toList),
     (false, CliOption.gradient "Gray".toList), (false, CliOption.colormap "full".toList),
     (false, CliOption.silentmode)]
    "a.sxm".toList ["-o".toList, "other".toList] (by decide)).trans (by decide)
  have i2 : process_args "/cwd".toList
        ["gwyexport".toList, "--defaultfilters".toList, "--format".toList, "jpg".toList,
         "--colormap".toList, "bogus".toList, "b.sxm".toList]
        glob_params_new =
      { inputfile := [], outpath := some "/cwd".toList, format := FileFormat.JPEG,
        filterlist := some "pc;melc;sr;melc;pc".toList, gradient := some "ReiGreen".toList,
        printmetafile := false, silentmode := false, colormapping := CMAP_ADAPTIVE,
        n_channels := 0, runmode := EXPORT_RUNMODE_IMG,
        filelist := ["b.sxm".toList] } :=
    by decide
  refine ⟨?_, ?_, e, ?_, ?_, ?_, ?_, ?_, ?_, ?_, by decide, ⟨opts, ho, hres, e2⟩, i1, i2,
    by decide, by decide, by decide⟩
  · rw [e]; exact c1
  · rw [e]; exact c2
  · rw [e]; exact c3
  · rw [e]; exact c4
  · rw [e]; exact c5
  · rw [e]; exact c6
  · rw [e]; exact c7
  · rw [e]; exact c8
  · rw [e]; exact c9

/-- Witness for C13: three options, then three tokens of which the last two look like
options; every field of the configuration is given. -/
theorem process_args_input_list_witness :
    process_args "/cwd".toList
        ("gwyexport".toList ::
          (["-o".toList, "out".toList, "-m".toList, "--format".toList, "png".toList] ++
            "a.sxm".toList :: ["-s".toList, "--help".toList]))
        glob_params_new =
      { inputfile := [], outpath := some "out".toList, format := FileFormat.PNG,
        filterlist := some "pc;melc;sr;melc;pc".toList, gradient := some "ReiGreen".toList,
        printmetafile := true, silentmode := false, colormapping := CMAP_AUTO,
        n_channels := 0, runmode := EXPORT_RUNMODE_IMG,
        filelist := ["a.sxm".toList, "-s".toList, "--help".toList] } :=
  have h := (process_args_input_list "/cwd".toList "gwyexport".toList
    ["-o".toList, "out".toList, "-m".toList, "--format".toList, "png".toList]
    "a.sxm".toList ["-s".toList, "--help".toList] (by decide) (by decide)).2.2.1
  have e : process_args_checks "/cwd".toList
      { (process_args_loop glob_params_new
          ["-o".toList, "out".toList, "-m".toList, "--format".toList, "png".toList]).1 with
        runmode := EXPORT_RUNMODE_IMG,
        filelist := "a.sxm".toList :: ["-s".toList, "--help".toList] } =
      { inputfile := [], outpath := some "out".toList, format := FileFormat.PNG,
        filterlist := some "pc;melc;sr;melc;pc".toList, gradient := some "ReiGreen".toList,
        printmetafile := true, silentmode := false, colormapping := CMAP_AUTO,
        n_channels := 0, runmode := EXPORT_RUNMODE_IMG,
        filelist := ["a.sxm".toList, "-s".toList, "--help".toList] } := by decide
  h.trans e

/-- C14, the code at the failing input: without a colormap option the mode after
`process_args` is `CMAP_AUTO`, not `CMAP_ADAPTIVE`, and the channel is drawn with
`gwy_pixbuf_draw_data_field_with_range`, not with the adaptive mapping; an invalid value
of the option does give `CMAP_ADAPTIVE`. -/
theorem process_args_unset_colormap_is_auto :
    (process_args "/cwd".toList ["gwyexport".toList, "scan.sxm".toList]
      glob_params_new).colormapping = CMAP_AUTO ∧
    (process_args "/cwd".toList ["gwyexport".toList, "scan.sxm".toList]
      glob_params_new).colormapping ≠ CMAP_ADAPTIVE ∧
    (handle_single_channel (fun _ => true) "/cwd".toList "Height".toList
      { process_args "/cwd".toList ["gwyexport".toList, "scan.sxm".toList]
          glob_params_new with inputfile := "scan.sxm".toList, n_channels := 1 } 0).map
        (fun ip => ip.draw) = some DrawCall.draw_data_field_with_range ∧
    (process_args "/cwd".toList
      ["gwyexport".toList, "-c".toList, "bogus".toList, "scan.sxm".toList]
      glob_params_new).colormapping = CMAP_ADAPTIVE := by
  decide

/-- C15, the code at the failing input: with an engine that has no module at all, the
tokens `pc`, `melc`, `sr` and `poly:2,2` run nothing and still append their
descriptions to the trace; only the token `any:level` appends nothing. -/
theorem run_filters_describes_failed_operations :
    run_filters (fun _ => false) (some "pc".toList) none =
      { calls := [EngineCall.process_func_exists "level".toList],
        processing := some "Plane level".toList, r := false } ∧
    (run_filters (fun _ => false) (some "pc;melc;sr;poly:2,2".toList) none).processing =
      some "Plane level, Median line correct, Scars remove, Polynomial level: (2,2)".toList ∧
    modulesRun (run_filters (fun _ => false) (some "pc;melc;sr;poly:2,2".toList) none).calls
      = [] ∧
    (run_filters (fun _ => false) (some "any:level".toList) none).processing = none := by
  decide

/-- C16, the code at the failing input: for the mode `CMAP_AUTO` no description of the
mode is appended to the trace and no range type is stored, while the pixel buffer is
drawn with the explicit range; for `CMAP_FULL` and `CMAP_ADAPTIVE` the description is
there. -/
theorem handle_single_channel_auto_not_described :
    (handle_single_channel (fun _ => true) "/cwd".toList "Height".toList
      { inputfile := "scan.sxm".toList, outpath := some "out".toList,
        format := FileFormat.PNG, filterlist := some "pc".toList,
        gradient := some "ReiGreen".toList, printmetafile := true, silentmode := false,
        colormapping := CMAP_AUTO, n_channels := 1 } 0).map
        (fun ip => (ip.processing, ip.rangetype, ip.draw))
      = some (some ("Color gradient: ".toList ++ ['\x60'] ++ "ReiGreen".toList ++ ['\x27']
            ++ ", Plane level".toList),
          none, DrawCall.draw_data_field_with_range) ∧
    (handle_single_channel (fun _ => true) "/cwd".toList "Height".toList
      { inputfile := "scan.sxm".toList, outpath := some "out".toList,
        format := FileFormat.PNG, filterlist := some "pc".toList,
        gradient := some "ReiGreen".toList, printmetafile := true, silentmode := false,
        colormapping := CMAP_FULL, n_channels := 1 } 0).map
        (fun ip => (ip.processing, ip.rangetype, ip.draw))
      = some (some ("Color gradient: ".toList ++ ['\x60'] ++ "ReiGreen".toList ++ ['\x27']
            ++ ", Color Range: Full, Plane level".toList),
          some GwyLayerBasicRangeType.GWY_LAYER_BASIC_RANGE_FULL,
          DrawCall.draw_data_field) ∧
    (handle_single_channel (fun _ => true) "/cwd".toList "Height".toList
      { inputfile := "scan.sxm".toList, outpath := some "out".toList,
        format := FileFormat.PNG, filterlist := some "pc".toList,
        gradient := some "ReiGreen".toList, printmetafile := true, silentmode := false,
        colormapping := CMAP_ADAPTIVE, n_channels := 1 } 0).map
        (fun ip => (ip.processing, ip.rangetype, ip.draw))
      = some (some ("Color gradient: ".toList ++ ['\x60'] ++ "ReiGreen".toList ++ ['\x27']
            ++ ", Color Range: Adaptive, Plane level".toList),
          some GwyLayerBasicRangeType.GWY_LAYER_BASIC_RANGE_ADAPT,
          DrawCall.draw_data_field_adaptive) := by
  decide

theorem digits_prefix_unique (c : Char) (hc : isdigit c = false) :
    ∀ (l1 l2 r1 r2 : Str), (∀ x ∈ l1, isdigit x = true) → (∀ x ∈ l2, isdigit x = true) →
      l1 ++ c :: r1 = l2 ++ c :: r2 → l1 = l2 := by
  intro l1
  induction l1 with
  | nil =>
    intro l2 r1 r2 _ h2 he
    cases l2 with
    | nil => rfl
    | cons b l2 =>
      simp at he
      have := h2 b (by simp)
      rw [← he.1, hc] at this
      exact absurd this (by simp)
  | cons a l1 ih =>
    intro l2 r1 r2 h1 h2 he
    cases l2 with
    | nil =>
      simp at he
      have := h1 a (by simp)
      rw [he.1, hc] at this
      exact absurd this (by simp)
    | cons b l2 =>
      simp at he
      rw [he.1, ih l2 r1 r2 (fun x hx => h1 x (by simp [hx]))
        (fun x hx => h2 x (by simp [hx])) he.2]

theorem toDigits_injective (n m : Nat) (h : Nat.toDigits 10 n = Nat.toDigits 10 m) :
    n = m := by
  have h1 := (toDigits_spec n).2.2 []
  have h2 := (toDigits_spec m).2.2 []
  rw [h] at h1
  rw [h1] at h2
  simpa [parseDigits] using h2

theorem printf_i_nonneg (z : Int) (hz : 0 ≤ z) :
    printf_i z = Nat.toDigits 10 z.toNat ∧ ∀ x ∈ printf_i z, isdigit x = true := by
  have e : printf_i z = Nat.toDigits 10 z.toNat := by
    unfold printf_i
    rw [if_neg (by omega)]
  rw [e]
  exact ⟨rfl, (toDigits_spec z.toNat).2.1⟩

theorem dropWhile_takeWhile_append (L s : Str) (hL : ∀ c ∈ L, c = G_DIR_SEPARATOR)
    (hs : s.head? ≠ some G_DIR_SEPARATOR) :
    (L ++ s).dropWhile (fun c => c = G_DIR_SEPARATOR) = s ∧
      (L ++ s).takeWhile (fun c => c = G_DIR_SEPARATOR) = L := by
  induction L with
  | nil => simpa using no_leading_separator s hs
  | cons a L ih =>
    have ha : a = G_DIR_SEPARATOR := hL a (by simp)
    obtain ⟨i1, i2⟩ := ih (fun c hc => hL c (by simp [hc]))
    simp [List.dropWhile, List.takeWhile, ha, i1, i2]

/-- The name `g_build_filename` builds from a directory and a file name ends with the
file name without its leading separators, after a part that does not depend on the
rest of the file name. -/
theorem g_build_filename_second (d L : Str) (hL : ∀ c ∈ L, c = G_DIR_SEPARATOR) :
    ∃ P : Str, ∀ s : Str, s ≠ [] → s.head? ≠ some G_DIR_SEPARATOR →
      g_build_filename [d, L ++ s] = P ++ s := by
  by_cases hd : d = []
  · refine ⟨L, ?_⟩
    intro s hs hsh
    obtain ⟨h1, h2⟩ := dropWhile_takeWhile_append L s hL hsh
    have hb := dropTrailing_ne_nil s hs hsh
    have hj := drop_append_trailing s
    have hn : L ++ s ≠ [] := by simp [hs]
    simp only [g_build_filename, List.foldl, g_build_path_step, hd, hn, if_true, if_false, h1,
      h2, hb, Bool.not_false, Bool.not_true, List.nil_append, Bool.false_eq_true]
    simp [hj]
  · by_cases hbd : dropTrailingSeparators (d.dropWhile (fun c => c = G_DIR_SEPARATOR)) = []
    · refine ⟨d.takeWhile (fun c => c = G_DIR_SEPARATOR), ?_⟩
      intro s hs hsh
      obtain ⟨h1, h2⟩ := dropWhile_takeWhile_append L s hL hsh
      have hb := dropTrailing_ne_nil s hs hsh
      have hj := drop_append_trailing s
      have hn : L ++ s ≠ [] := by simp [hs]
      simp only [g_build_filename, List.foldl, g_build_path_step, hd, hn, if_true, if_false,
        h1, h2, hb, hbd, Bool.not_false, Bool.not_true, List.nil_append, Bool.false_eq_true]
      simp [hj]
    · refine ⟨d.takeWhile (fun c => c = G_DIR_SEPARATOR)
        ++ dropTrailingSeparators (d.dropWhile (fun c => c = G_DIR_SEPARATOR))
        ++ [G_DIR_SEPARATOR], ?_⟩
      intro s hs hsh
      obtain ⟨h1, h2⟩ := dropWhile_takeWhile_append L s hL hsh
      have hb := dropTrailing_ne_nil s hs hsh
      have hj := drop_append_trailing s
      have hn : L ++ s ≠ [] := by simp [hs]
      simp only [g_build_filename, List.foldl, g_build_path_step, hd, hn, if_true, if_false,
        h1, h2, hb, hbd, Bool.not_false, Bool.not_true, List.nil_append, Bool.false_eq_true]
      simp [hj]

/-- The names `handle_single_channel` gives to the image and the metadata file. -/
theorem handle_single_channel_names (avail : Str → Bool) (cwd title : Str)
    (gp : ExportGlobalParameters) (ci : Int) (hci : ci < gp.n_channels) :
    ∃ r, handle_single_channel avail cwd title gp ci = some r ∧
      r.filename = g_build_filename [outputDir gp cwd, outputStem gp.inputfile ci title]
        ++ imageExtension gp.format ∧
      r.metafilename = g_build_filename [outputDir gp cwd, outputStem gp.inputfile ci title]
        ++ ".txt".toList := by
  unfold handle_single_channel
  rw [if_neg (not_not.2 hci)]
  refine ⟨_, rfl, ?_, ?_⟩
  · simp only [g_strdelimit_blank]
    cases hf : gp.format <;> simp [imageExtension, outputStem, outputDir]
  · simp only [g_strdelimit_blank]
    simp [outputStem, outputDir]

/-- The stem of a channel is the leading separators of the base name followed by a text
that does not start with a separator and holds the channel index between dashes. -/
theorem outputStem_split (inputfile : Str) :
    ∃ L B : Str, (∀ c ∈ L, c = G_DIR_SEPARATOR) ∧
      ∀ (ci : Int) (title : Str),
        outputStem inputfile ci title
          = L ++ (B ++ '-' :: (printf_i ci ++ '-' :: sanitizedTitle title)) ∧
        (B ++ '-' :: (printf_i ci ++ '-' :: sanitizedTitle title)) ≠ [] ∧
        (B ++ '-' :: (printf_i ci ++ '-' :: sanitizedTitle title)).head?
          ≠ some G_DIR_SEPARATOR := by
  refine ⟨(g_path_get_basename inputfile).takeWhile (fun c => c = G_DIR_SEPARATOR),
    (g_path_get_basename inputfile).dropWhile (fun c => c = G_DIR_SEPARATOR), ?_, ?_⟩
  · intro c hc
    have := List.mem_takeWhile_imp hc
    simpa using this
  · intro ci title
    refine ⟨?_, by simp, ?_⟩
    · unfold outputStem
      have hsplit := List.takeWhile_append_dropWhile
        (fun c => decide (c = G_DIR_SEPARATOR)) (g_path_get_basename inputfile)
      rw [← List.append_assoc, hsplit]
      simp
    · have hnot := List.head?_dropWhile_not (fun c => decide (c = G_DIR_SEPARATOR))
        (g_path_get_basename inputfile)
      cases hB : (g_path_get_basename inputfile).dropWhile
          (fun c => decide (c = G_DIR_SEPARATOR)) with
      | nil => simp; decide
      | cons x xs =>
        rw [hB] at hnot
        simp at hnot
        simpa using hnot

/-- Two stems of the same input with different non-negative channel indices differ. -/
theorem stem_tail_injective (B : Str) (i j : Int) (t1 t2 e : Str) (hi : 0 ≤ i)
    (hj : 0 ≤ j)
    (h : (B ++ '-' :: (printf_i i ++ '-' :: t1)) ++ e
      = (B ++ '-' :: (printf_i j ++ '-' :: t2)) ++ e) : i = j := by
  have h1 := List.append_cancel_right h
  have h2 := List.append_cancel_left h1
  simp only [List.cons.injEq, true_and] at h2
  obtain ⟨ei, di⟩ := printf_i_nonneg i hi
  obtain ⟨ej, dj⟩ := printf_i_nonneg j hj
  have h3 := digits_prefix_unique '-' (by decide) _ _ _ _ di dj h2
  rw [ei, ej] at h3
  have := toDigits_injective _ _ h3
  omega

/-- C17: for a fixed output directory, input file and image format, two different
non-negative channel indices get different image paths and different metadata paths,
whatever the two channel titles are. -/
theorem channel_paths_distinct (avail : Str → Bool) (cwd t1 t2 : Str)
    (gp : ExportGlobalParameters) (i j : Int) (hi0 : 0 ≤ i) (hj0 : 0 ≤ j)
    (hi : i < gp.n_channels) (hj : j < gp.n_channels) (hij : i ≠ j) :
    ∃ r1 r2, handle_single_channel avail cwd t1 gp i = some r1 ∧
      handle_single_channel avail cwd t2 gp j = some r2 ∧
      r1.filename ≠ r2.filename ∧ r1.metafilename ≠ r2.metafilename := by
  obtain ⟨r1, e1, f1, m1⟩ := handle_single_channel_names avail cwd t1 gp i hi
  obtain ⟨r2, e2, f2, m2⟩ := handle_single_channel_names avail cwd t2 gp j hj
  obtain ⟨L, B, hL, hst⟩ := outputStem_split gp.inputfile
  obtain ⟨P, hP⟩ := g_build_filename_second (outputDir gp cwd) L hL
  obtain ⟨s1, n1, hd1⟩ := hst i t1
  obtain ⟨s2, n2, hd2⟩ := hst j t2
  have b1 := hP _ n1 hd1
  have b2 := hP _ n2 hd2
  rw [← s1] at b1
  rw [← s2] at b2
  refine ⟨r1, r2, e1, e2, ?_, ?_⟩
  · intro he
    rw [f1, f2, b1, b2, List.append_assoc P, List.append_assoc P] at he
    have he2 := List.append_cancel_left he
    exact hij (stem_tail_injective B i j _ _ _ hi0 hj0 he2)
  · intro he
    rw [m1, m2, b1, b2, List.append_assoc P, List.append_assoc P] at he
    have he2 := List.append_cancel_left he
    exact hij (stem_tail_injective B i j _ _ _ hi0 hj0 he2)

/-- Witness for C17: channels 1 and 12 of one file, with titles made of digits and
dashes. -/
theorem channel_paths_distinct_witness :
    ∃ r1 r2,
      handle_single_channel (fun _ => true) "/cwd".toList "2-1".toList
        { inputfile := "scan-1.sxm".toList, outpath := some "out/".toList,
          format := FileFormat.JPEG, filterlist := none, gradient := none,
          printmetafile := true, silentmode := false, colormapping := CMAP_FULL,
          n_channels := 20 } 1 = some r1 ∧
      handle_single_channel (fun _ => true) "/cwd".toList "1".toList
        { inputfile := "scan-1.sxm".toList, outpath := some "out/".toList,
          format := FileFormat.JPEG, filterlist := none, gradient := none,
          printmetafile := true, silentmode := false, colormapping := CMAP_FULL,
          n_channels := 20 } 12 = some r2 ∧
      r1.filename ≠ r2.filename ∧ r1.metafilename ≠ r2.metafilename :=
  channel_paths_distinct (fun _ => true) "/cwd".toList "2-1".toList "1".toList
    { inputfile := "scan-1.sxm".toList, outpath := some "out/".toList,
      format := FileFormat.JPEG, filterlist := none, gradient := none,
      printmetafile := true, silentmode := false, colormapping := CMAP_FULL,
      n_channels := 20 } 1 12 (by decide) (by decide) (by decide) (by decide) (by decide)

end GwyExport
